import Mathlib

/-!
Verification of the semantic tabular analytics engine of
`python-service/data_operations.py` (aggregation, pivoting, outlier
detection/treatment) against its design specification.

The engine operates on JSON-decoded tables: lists of rows, each row a
mapping from column name to a loosely typed value.  The shallow embedding
below models such values over exact rationals (`ℚ`): Python floats are
idealized as rationals, which is faithful for every finite decimal input
the service receives, and the transcendental results of the `transform`
outlier treatment (`np.log1p`, signed square root) are kept symbolically,
since no verified property observes their numeric magnitude.
-/

set_option maxRecDepth 4000

deriving instance DecidableEq for Except

/- Batteries marks the rational-number operations `@[irreducible]`; the
concrete witnesses below evaluate the embedding with `decide`, which
needs them to unfold. -/
set_option allowUnsafeReducibility true
attribute [local semireducible] Rat.add Rat.mul Rat.inv Rat.sub Rat.div
  Rat.ofScientific

namespace DataOps

/-! ### Character-level string helpers

Core `String` functions (`toLower`, `splitOn`, `trim`, ...) are
position-based loops the kernel cannot evaluate, so the embedding uses
structural character-list equivalents with the same semantics as the
Python string operations they model. -/

/-- `pat` is a prefix of `l`. -/
def isPrefixCL : List Char → List Char → Bool
  | [], _ => true
  | _ :: _, [] => false
  | a :: as, b :: bs => a = b && isPrefixCL as bs

def containsCLAux (pat : List Char) : List Char → Bool
  | [] => false
  | c :: rest => isPrefixCL pat (c :: rest) || containsCLAux pat rest

/-- Python `pat in s` for a nonempty pattern. -/
def containsSub (s pat : String) : Bool :=
  containsCLAux pat.data s.data

/-- `s.lower()`. -/
def lowerStr (s : String) : String :=
  ⟨s.data.map Char.toLower⟩

/-- `s.strip()`. -/
def trimStr (s : String) : String :=
  ⟨((s.data.dropWhile Char.isWhitespace).reverse.dropWhile Char.isWhitespace).reverse⟩

/-- `s.startswith(pat)`. -/
def strStartsWith (s pat : String) : Bool :=
  isPrefixCL pat.data s.data

/-- `s.endswith(pat)`. -/
def strEndsWith (s pat : String) : Bool :=
  isPrefixCL pat.data.reverse s.data.reverse

/-- Lexicographic string order over code points (the order `sort_values`
uses on string columns), written on character lists. -/
def strLeAux : List Char → List Char → Bool
  | [], _ => true
  | _ :: _, [] => false
  | a :: as, b :: bs =>
    if a.toNat < b.toNat then true
    else if b.toNat < a.toNat then false
    else strLeAux as bs

def strLe (s t : String) : Bool :=
  strLeAux s.data t.data

/-- Left-to-right non-overlapping split on a nonempty separator (fuel
makes the recursion structural; the fuel is always sufficient). -/
def splitOnCLAux (sep : List Char) : Nat → List Char → List Char → List (List Char)
  | 0, acc, rest => [acc.reverse ++ rest]
  | _ + 1, acc, [] => [acc.reverse]
  | fuel + 1, acc, c :: rest =>
    if isPrefixCL sep (c :: rest) then
      acc.reverse :: splitOnCLAux sep fuel [] (rest.drop (sep.length - 1))
    else
      splitOnCLAux sep fuel (c :: acc) rest

def splitOnCL (sep l : List Char) : List (List Char) :=
  splitOnCLAux sep (l.length + 1) [] l

/-- `s.split(sep)` for a nonempty separator. -/
def strSplitOn (s sep : String) : List String :=
  (splitOnCL sep.data s.data).map (fun cs => ⟨cs⟩)

def strIntercalate (sep : String) : List String → String
  | [] => ""
  | [x] => x
  | x :: xs => x ++ sep ++ strIntercalate sep xs

/-- `s.replace(pat, rep)` for a nonempty pattern. -/
def strReplace (s pat rep : String) : String :=
  strIntercalate rep (strSplitOn s pat)

/-- Python `s.split()`: split on whitespace, dropping empties. -/
def pySplitWsAux : List Char → List Char → List String
  | acc, [] => if acc.isEmpty then [] else [⟨acc.reverse⟩]
  | acc, c :: rest =>
    if c.isWhitespace then
      if acc.isEmpty then pySplitWsAux [] rest
      else ⟨acc.reverse⟩ :: pySplitWsAux [] rest
    else pySplitWsAux (c :: acc) rest

def pySplitWs (s : String) : List String :=
  pySplitWsAux [] s.data

/-- Digit run to number (callers guard that all characters are digits). -/
def parseNatCL (l : List Char) : ℕ :=
  l.foldl (fun n c => n * 10 + (c.toNat - '0'.toNat)) 0

/-- Stable insertion sort (the kernel-evaluable replacement for the
sorting pandas performs). -/
def insertSorted (le : α → α → Bool) (x : α) : List α → List α
  | [] => [x]
  | y :: ys => if le x y then x :: y :: ys else y :: insertSorted le x ys

def stableSort (le : α → α → Bool) (l : List α) : List α :=
  l.foldr (insertSorted le) []

/-- Distinct elements in first-occurrence order (Python `unique` /
`drop_duplicates` semantics). -/
def distinctFirst {α : Type} [DecidableEq α] (xs : List α) : List α :=
  xs.foldl (fun acc x => if acc.contains x then acc else acc ++ [x]) []

/-- Kind tag for the two transcendental outlier transforms of
`treat_outliers` (strategy `transform`): `np.log1p` and the signed square
root `np.sign(x) * np.sqrt(np.abs(x))`.  Their real-number results are
irrational in general, so the embedding records the function applied and
its rational argument. -/
inductive TransKind where
  | log1p
  | signedSqrt
deriving DecidableEq, Repr

/-- A cell value of a table, as decoded from JSON and handled by pandas:
missing (`None`/`NaN`), integer, floating-point (idealized as `ℚ`),
string, boolean, or a symbolic transcendental produced by the `transform`
outlier treatment. -/
inductive Value where
  | null
  | int (n : ℤ)
  | float (q : ℚ)
  | str (s : String)
  | bool (b : Bool)
  | xform (k : TransKind) (q : ℚ)
deriving DecidableEq, Repr

/-- A row is an ordered association list from column names to values,
modelling a Python `dict` row. -/
abbrev Row := List (String × Value)

/-- A table is an ordered list of rows. -/
abbrev Table := List Row

/-- Value of column `c` in row `r`; a key absent from the row reads as
missing, exactly as `pd.DataFrame` fills absent record keys with `NaN`. -/
def getVal (r : Row) (c : String) : Value :=
  match r.find? (fun p => p.1 = c) with
  | some p => p.2
  | none => Value.null

/-- The numeric reading of a value, when it has one.  Booleans read as
0/1 (pandas treats bool dtype as numeric); strings are not coerced here. -/
def Value.toRat? : Value → Option ℚ
  | .int n => some (n : ℚ)
  | .float q => some q
  | .bool b => some (if b then 1 else 0)
  | _ => none

/-- Whether a cell is missing (`None`/`NaN`). -/
def Value.isNull : Value → Bool
  | .null => true
  | _ => false

/-- Column order of a records-built DataFrame: keys of the first row, then
keys first seen in later rows, in encounter order.  Rows model Python
dicts, whose keys are unique within a row. -/
def tableColumns (t : Table) : List String :=
  t.foldl (fun acc r =>
    acc ++ (r.map Prod.fst).filter (fun c => !acc.contains c)) []

/-- The cells of column `c`, one per row (missing keys read as null). -/
def columnCells (t : Table) (c : String) : List Value :=
  t.map (fun r => getVal r c)

/-! ### Rounding to 2 decimal places (`round_numeric_values_to_2_decimals`) -/

/-- Python `round` rounds half to even (banker's rounding); this is the
integer rounding it applies. -/
def roundHalfEven (q : ℚ) : ℤ :=
  let f := ⌊q⌋
  let r := q - f
  if r < 1/2 then f
  else if r > 1/2 then f + 1
  else if f % 2 = 0 then f else f + 1

/-- `round(q, 2)` over exact rationals. -/
def round2 (q : ℚ) : ℚ := (roundHalfEven (q * 100) : ℚ) / 100

/-- Python `float(s)` on decimal literals: optional surrounding
whitespace, optional sign, digits with an optional fractional part (at
least one digit overall).  Exponent and special forms (`inf`, `nan`) are
outside the inputs this service exchanges and are not parsed. -/
def parseDecimal? (s : String) : Option ℚ :=
  let t := (trimStr s).data
  let (sign, body) :=
    match t with
    | '-' :: rest => ((-1 : ℚ), rest)
    | '+' :: rest => ((1 : ℚ), rest)
    | _ => ((1 : ℚ), t)
  match splitOnCL ['.'] body with
  | [ip] =>
    if ip.length > 0 && ip.all Char.isDigit then
      some (sign * (parseNatCL ip : ℚ))
    else none
  | [ip, fp] =>
    if (ip.length > 0 || fp.length > 0) && ip.all Char.isDigit
        && fp.all Char.isDigit then
      some (sign * ((parseNatCL ip : ℚ) + (parseNatCL fp : ℚ) / ((10 : ℚ) ^ fp.length)))
    else none
  | _ => none

/-- One cell of `round_numeric_values_to_2_decimals`: missing stays
missing, integers (and booleans, which Python treats as `int` but leaves
untouched because they are not `np.integer`) are kept, floats are rounded
to 2 decimals, strings that parse as numbers become rounded numbers,
everything else is kept as-is. -/
def roundValue (v : Value) : Value :=
  match v with
  | .null => .null
  | .int n => .int n
  | .float q => .float (round2 q)
  | .str s =>
    match parseDecimal? s with
    | some q => .float (round2 q)
    | none => .str s
  | .bool b => .bool b
  | .xform k q => .xform k q

/-- `round_numeric_values_to_2_decimals` over a whole table. -/
def round_numeric_values_to_2_decimals (data : Table) : Table :=
  data.map (fun r => r.map (fun p => (p.1, roundValue p.2)))

theorem roundHalfEven_intCast (n : ℤ) : roundHalfEven (n : ℚ) = n := by
  unfold roundHalfEven
  simp [Int.floor_intCast]

theorem round2_idem (q : ℚ) : round2 (round2 q) = round2 q := by
  unfold round2
  rw [div_mul_eq_mul_div, mul_div_assoc]
  norm_num [roundHalfEven_intCast]

theorem roundValue_idem (v : Value) : roundValue (roundValue v) = roundValue v := by
  cases v with
  | str s =>
    unfold roundValue
    cases h : parseDecimal? s with
    | none => simp [h]
    | some q => simp [h, round2_idem]
  | float q => simp [roundValue, round2_idem]
  | null => rfl
  | int n => rfl
  | bool b => rfl
  | xform k q => rfl

/-! ### Pandas dtype model

A records-built DataFrame assigns each column a dtype.  For the values
this service exchanges (JSON scalars): an all-boolean column with no
missing entry gets dtype `bool`; a column whose cells are all
integer/float/missing with at least one present number gets a numeric
dtype (`int64` when all cells are integers with none missing, else
`float64`, with integers upcast to floats); everything else (strings,
mixed types, all-missing columns) is dtype `object`. -/

inductive Dtype where
  | dbool
  | dint
  | dfloat
  | dobject
deriving DecidableEq, Repr

def Value.isInt : Value → Bool
  | .int _ => true
  | _ => false

def Value.isFloat : Value → Bool
  | .float _ => true
  | _ => false

def Value.isStr : Value → Bool
  | .str _ => true
  | _ => false

def Value.isBool : Value → Bool
  | .bool _ => true
  | _ => false

def dtypeOf (cells : List Value) : Dtype :=
  if cells ≠ [] && cells.all Value.isBool then .dbool
  else if cells ≠ [] && cells.all Value.isInt then .dint
  else if cells.any (fun v => v.isInt || v.isFloat) &&
      cells.all (fun v => v.isInt || v.isFloat || v.isNull) then .dfloat
  else .dobject

/-- `pd.api.types.is_numeric_dtype` (bool dtype counts as numeric). -/
def isNumericDtype (cells : List Value) : Bool :=
  dtypeOf cells ≠ .dobject

/-- `pd.api.types.is_string_dtype` on a records column (pandas ≥ 2.0
element-inference semantics for object columns): true when every present
cell is a string and at least one cell is present. -/
def isStringDtype (cells : List Value) : Bool :=
  dtypeOf cells = .dobject && cells.any (fun v => !v.isNull)
    && cells.all (fun v => v.isStr || v.isNull)

/-- The dtype coercion `pd.DataFrame(records)` performs on a column:
integers in a `float64` column are upcast to floats; other columns keep
their cells. -/
def coerceCell (dt : Dtype) (v : Value) : Value :=
  match dt, v with
  | .dfloat, .int n => .float (n : ℚ)
  | _, _ => v

/-- `pd.DataFrame(records)`: rectangularizes the rows over the full column
list (absent keys become missing) and applies per-column dtype coercion. -/
def toDF (t : Table) : Table :=
  let cols := tableColumns t
  let dts := cols.map (fun c => (c, dtypeOf (columnCells t c)))
  t.map (fun r => dts.map (fun cd => (cd.1, coerceCell cd.2 (getVal r cd.1))))

/-! ### Column classifier (`is_id_column` and friends) -/

/-- Characters that `re` counts as word characters (`\w`). -/
def isWordChar (c : Char) : Bool :=
  c.isAlphanum || c = '_'

/-- Whether `re.search(r'\bid\b', s)` matches: an occurrence of `id`
bounded on both sides by a non-word character or the string edge. -/
def hasIdWordAux (prev : Option Char) : List Char → Bool
  | [] => false
  | c :: rest =>
    (c = 'i' &&
      (match rest with
       | 'd' :: rest2 =>
         ((prev.map isWordChar).getD false = false) &&
           (match rest2 with
            | [] => true
            | c2 :: _ => !isWordChar c2)
       | _ => false))
    || hasIdWordAux (some c) rest

def hasIdWord (s : String) : Bool :=
  hasIdWordAux none s.data

def commonIdPatterns : List String :=
  ["order_id", "item_id", "customer_id", "user_id", "product_id",
   "transaction_id", "invoice_id", "payment_id", "shipment_id",
   "employee_id", "vendor_id", "supplier_id", "client_id",
   "account_id", "contact_id", "lead_id", "opportunity_id",
   "case_id", "ticket_id", "request_id", "record_id",
   "entity_id", "object_id", "reference_id", "ref_id"]

/-- `is_id_column`: the case-insensitive regex `_id$|^id$|_id_`, the
curated pattern list, or a short (≤ 30 chars, ≤ 3 words) name containing
`id` as a standalone word. -/
def is_id_column (name : String) : Bool :=
  let nl := lowerStr name
  let lower := trimStr (lowerStr name)
  if strEndsWith nl "_id" || nl = "id" || containsSub nl "_id_" then true
  else if commonIdPatterns.contains lower then true
  else if hasIdWord lower && lower.length ≤ 30 && (pySplitWs lower).length ≤ 3 then true
  else false

def pricePatterns : List String :=
  ["price", "cost", "amount", "value", "revenue", "sales", "income",
   "fee", "charge", "payment", "total", "subtotal", "tax", "discount_amount",
   "price_per_unit", "unit_price", "selling_price", "purchase_price"]

/-- `is_price_column`: the lowered, stripped name contains a monetary
keyword. -/
def is_price_column (name : String) : Bool :=
  let lower := trimStr (lowerStr name)
  pricePatterns.any (fun pat => containsSub lower pat)

def percentagePatterns : List String :=
  ["percent", "percentage", "rate", "ratio", "pct", "%",
   "discount_percent", "conversion_rate", "roi", "margin",
   "efficiency", "utilization", "coverage", "penetration"]

/-- `is_percentage_or_rate_column`. -/
def is_percentage_or_rate_column (name : String) : Bool :=
  let lower := trimStr (lowerStr name)
  percentagePatterns.any (fun pat => containsSub lower pat)
    || strEndsWith lower "_rate" || strEndsWith lower "_ratio"

/-- Python `str(v).lower()` for the scalar values a cell can hold.
Integral floats render with a trailing `.0` as Python does; the rendering
of non-integral floats only ever meets membership tests against
letter/digit tokens, for which the exact spelling is immaterial. -/
def pyStrLower : Value → String
  | .null => "none"
  | .int n => toString n
  | .float q =>
    if q.den = 1 then toString q.num ++ ".0"
    else toString q.num ++ "/" ++ toString q.den
  | .str s => lowerStr s
  | .bool b => if b then "true" else "false"
  | .xform _ q => "~" ++ toString q.num

def booleanNamePatterns : List String :=
  ["is_", "has_", "can_", "should_", "will_", "did_", "was_",
   "active", "enabled", "completed", "failed", "success", "valid",
   "flag", "status_bool"]

def boolLikeLiterals : List String :=
  ["true", "false", "1", "0", "yes", "no", "y", "n", "t", "f"]

/-- `is_boolean_column`: boolean-ish name prefix, native bool dtype, or an
object column whose ≤ 3 distinct present values are all boolean-like
literals. -/
def is_boolean_column (name : String) (cells : List Value) : Bool :=
  let lower := trimStr (lowerStr name)
  if booleanNamePatterns.any (fun pat => strStartsWith lower pat) then true
  else if dtypeOf cells = .dbool then true
  else if dtypeOf cells = .dobject then
    let uniq := distinctFirst ((cells.filter (fun v => !v.isNull)).map pyStrLower)
    uniq.length ≤ 3 && uniq.all (fun v => boolLikeLiterals.contains v)
  else false

def datePatterns : List String :=
  ["date", "time", "timestamp", "created_at", "updated_at",
   "start_date", "end_date", "birth_date", "join_date"]

/-- `is_date_column`: date keyword in the name, or datetime64 dtype.  The
JSON-decoded tables this service receives contain no datetime objects, so
a records-built column is never datetime64 and the dtype check is
vacuous. -/
def is_date_column (name : String) (cells : List Value) : Bool :=
  let _ := cells
  let lower := trimStr (lowerStr name)
  datePatterns.any (fun pat => containsSub lower pat)

def derivedPatterns : List String :=
  ["rate", "ratio", "percent", "percentage", "pct", "roi", "margin",
   "efficiency", "conversion", "yield", "utilization", "coverage"]

def derivedAggNames : List String :=
  ["total", "average", "avg", "mean", "median", "sum"]

def derivedBasePatterns : List String :=
  ["qty", "quantity", "amount", "value", "price", "cost"]

/-- `is_derived_or_ratio_column`. -/
def is_derived_or_ratio_column (name : String) (availableColumns : List String) : Bool :=
  let lower := trimStr (lowerStr name)
  if derivedPatterns.any (fun pat => containsSub lower pat) then true
  else if derivedAggNames.contains lower then
    availableColumns.any (fun col =>
      derivedBasePatterns.any (fun base => containsSub (lowerStr col) base))
  else false

/-- `get_count_name_for_id_column`. -/
def get_count_name_for_id_column (name : String) : String :=
  let lower := trimStr (lowerStr name)
  let specialCases : List (String × String) :=
    [("customer_id", "unique_customers"), ("user_id", "unique_users"),
     ("client_id", "unique_clients"), ("account_id", "unique_accounts"),
     ("contact_id", "unique_contacts"), ("lead_id", "unique_leads"),
     ("employee_id", "unique_employees"), ("vendor_id", "unique_vendors"),
     ("supplier_id", "unique_suppliers")]
  match specialCases.find? (fun p => p.1 = lower) with
  | some p => p.2
  | none =>
    if strEndsWith lower "_id" then
      let baseName := strIntercalate "" (strSplitOn lower "_id")
      if ["customer", "user", "client", "account", "contact", "lead",
          "employee", "vendor", "supplier", "person", "member"].contains baseName then
        baseName ++ "s" |> (fun b => "unique_" ++ b)
      else baseName ++ "_count"
    else if lower = "id" then "record_count"
    else if containsSub lower "id" then
      let parts := strSplitOn lower "_"
      if parts.length > 1 then
        let base :=
          if parts.getLast? = some "id" then
            strIntercalate "_" (parts.dropLast)
          else strIntercalate "_" parts
        base ++ "_count"
      else lower ++ "_count"
    else lower ++ "_count"

/-! ### Aggregation functions -/

/-- pandas linear-interpolated quantile over a list of present values.
Callers guard the empty case (pandas yields `NaN` there). -/
def quantileQ (xs : List ℚ) (p : ℚ) : ℚ :=
  let s := stableSort (fun a b => decide (a ≤ b)) xs
  let n := s.length
  let h : ℚ := ((n : ℚ) - 1) * p
  let lo := (⌊h⌋).toNat
  let hi := (⌈h⌉).toNat
  let a := s.getD lo 0
  let b := s.getD hi 0
  a + (h - (lo : ℚ)) * (b - a)

/-- The aggregation functions the engine can place in its aggregation
dictionary.  These mirror the `Literal` accepted by `aggregate_data`
(`sum`, `avg`, `mean`, `min`, `max`, `count`, `median`, `var`, `p90`,
`p95`, `p99`, `any`, `all`) plus the internal `nunique` used for
identifier columns.  `std` is omitted from the embedding: its square
root is irrational and no verified property concerns it. -/
inductive AggFunc where
  | sum | avg | mean | min | max | count | median | var
  | p90 | p95 | p99 | anyA | allA | nunique
deriving DecidableEq, Repr

/-- Present (non-missing) numeric readings of a column's cells. -/
def presentRats (cells : List Value) : List ℚ :=
  cells.filterMap Value.toRat?

/-- The integer cells of a column (used to preserve `int64` results). -/
def presentInts (cells : List Value) : List ℤ :=
  cells.filterMap (fun v => match v with | .int n => some n | _ => none)

/-- Whether a column view is pure `int64` (all cells integers, nonempty),
in which case pandas keeps integer results for sum/min/max. -/
def allIntCells (cells : List Value) : Bool :=
  cells ≠ [] && cells.all Value.isInt

/-- Apply one aggregation function to the cells of a column within one
group, with pandas skip-missing semantics: `sum` of no present values is
0, order statistics of no present values are missing, `count`/`nunique`
count present cells, quantile-based results are floats, and integer
columns keep integer `sum`/`min`/`max`. -/
def aggApply : AggFunc → List Value → Value
  | .sum, cells =>
    if allIntCells cells then .int (presentInts cells).sum
    else .float (presentRats cells).sum
  | .avg, cells | .mean, cells =>
    match presentRats cells with
    | [] => .null
    | vals => .float (vals.sum / (vals.length : ℚ))
  | .median, cells =>
    match presentRats cells with
    | [] => .null
    | vals => .float (quantileQ vals (1/2))
  | .min, cells =>
    match presentRats cells with
    | [] => .null
    | v :: vs =>
      if allIntCells cells then
        match presentInts cells with
        | [] => .null
        | n :: ns => .int (ns.foldl Min.min n)
      else .float (vs.foldl Min.min v)
  | .max, cells =>
    match presentRats cells with
    | [] => .null
    | v :: vs =>
      if allIntCells cells then
        match presentInts cells with
        | [] => .null
        | n :: ns => .int (ns.foldl Max.max n)
      else .float (vs.foldl Max.max v)
  | .count, cells => .int ((cells.filter (fun v => !v.isNull)).length : ℤ)
  | .var, cells =>
    match presentRats cells with
    | [] => .null
    | [_] => .null
    | vals =>
      let n : ℚ := vals.length
      let m := vals.sum / n
      .float ((vals.map (fun x => (x - m) ^ 2)).sum / (n - 1))
  | .p90, cells =>
    match presentRats cells with
    | [] => .null
    | vals => .float (quantileQ vals (90/100))
  | .p95, cells =>
    match presentRats cells with
    | [] => .null
    | vals => .float (quantileQ vals (95/100))
  | .p99, cells =>
    match presentRats cells with
    | [] => .null
    | vals => .float (quantileQ vals (99/100))
  | .anyA, cells => .bool ((presentRats cells).any (fun q => q ≠ 0))
  | .allA, cells => .bool ((presentRats cells).all (fun q => q ≠ 0))
  | .nunique, cells =>
    .int ((distinctFirst (cells.filter (fun v => !v.isNull))).length : ℤ)

/-! ### `aggregate_data`: column classification -/

/-- One cell's success under `pd.to_numeric(errors="coerce")`: numbers and
booleans convert, strings convert when they parse as decimals, missing
stays missing. -/
def cellConverts : Value → Bool
  | .int _ => true
  | .float _ => true
  | .bool _ => true
  | .str s => (parseDecimal? s).isSome
  | _ => false

/-- The ≥ 70 % conversion-rate test of `is_numeric_column` /
`is_string_column` over the present cells of an object column. -/
def conversionRateAtLeast70 (cells : List Value) : Bool :=
  let nonNull := cells.filter (fun v => !v.isNull)
  nonNull.length > 0 &&
    10 * (nonNull.filter cellConverts).length ≥ 7 * nonNull.length

/-- `is_numeric_column` (local helper of `aggregate_data` and
`pivot_table`): not an ID column, and natively numeric or an object
column with ≥ 70 % convertible present values. -/
def is_numeric_column (name : String) (cells : List Value) : Bool :=
  if is_id_column name then false
  else if isNumericDtype cells then true
  else if dtypeOf cells = .dobject then conversionRateAtLeast70 cells
  else false

/-- `is_string_column` (local helper): not an ID column, and an object
column below the 70 % conversion rate, or otherwise a string dtype. -/
def is_string_column (name : String) (cells : List Value) : Bool :=
  if is_id_column name then false
  else
    let objectBelow70 :=
      dtypeOf cells = .dobject &&
        (let nonNull := cells.filter (fun v => !v.isNull)
         nonNull.length > 0 &&
           10 * (nonNull.filter cellConverts).length < 7 * nonNull.length)
    objectBelow70 || isStringDtype cells

/-- Triple of (numeric, ID, string) column lists produced by the
classification loops of `aggregate_data`: `is_id_column`, else
`is_string_column`, else `is_numeric_column`; columns matching none are
dropped. -/
def classifyStep (df : Table)
    (acc : List String × List String × List String) (col : String) :
    List String × List String × List String :=
  if is_id_column col then (acc.1, acc.2.1 ++ [col], acc.2.2)
  else if is_string_column col (columnCells df col) then
    (acc.1, acc.2.1, acc.2.2 ++ [col])
  else if is_numeric_column col (columnCells df col) then
    (acc.1 ++ [col], acc.2.1, acc.2.2)
  else acc

def classifyThree (df : Table) (cols : List String) :
    List String × List String × List String :=
  cols.foldl (classifyStep df) ([], [], [])

/-- The candidate value columns of `aggregate_data`: the caller's list
restricted to existing columns, or every column except the group key. -/
def candidateCols (allCols : List String) (group_by : String)
    (agg_columns : Option (List String)) : List String :=
  match agg_columns with
  | some cs =>
    if cs ≠ [] then cs.filter (fun c => allCols.contains c)
    else allCols.filter (fun c => c ≠ group_by)
  | none => allCols.filter (fun c => c ≠ group_by)

/-- Semantic partition of the numeric value columns, in the order the
source tests them: price, percentage/rate, boolean, date, derived,
regular. -/
structure SemanticCols where
  price : List String
  percentage : List String
  booleanCols : List String
  dateCols : List String
  derived : List String
  regular : List String
deriving Repr

def semStep (df : Table) (allCols : List String) (acc : SemanticCols)
    (col : String) : SemanticCols :=
  if is_price_column col then { acc with price := acc.price ++ [col] }
  else if is_percentage_or_rate_column col then
    { acc with percentage := acc.percentage ++ [col] }
  else if is_boolean_column col (columnCells df col) then
    { acc with booleanCols := acc.booleanCols ++ [col] }
  else if is_date_column col (columnCells df col) then
    { acc with dateCols := acc.dateCols ++ [col] }
  else if is_derived_or_ratio_column col allCols then
    { acc with derived := acc.derived ++ [col] }
  else { acc with regular := acc.regular ++ [col] }

def semanticPartition (df : Table) (numericCols allCols : List String) :
    SemanticCols :=
  numericCols.foldl (semStep df allCols) ⟨[], [], [], [], [], []⟩

/-! ### `aggregate_data`: intent detection and function selection -/

/-- Keyword families scanned case-insensitively over the caller's free
text intent. -/
structure IntentFlags where
  average : Bool
  median : Bool
  percentile : Bool
  maxF : Bool
  minF : Bool
  variability : Bool
deriving Repr

def detectIntent (user_intent : Option String) : IntentFlags :=
  let il := lowerStr (user_intent.getD "")
  { average := ["average", "avg", "mean", "typical"].any (containsSub il)
    median := ["median", "typical without outliers", "middle"].any (containsSub il)
    percentile := ["p90", "p95", "p99", "percentile", "top 10%", "top 5%", "top 1%"].any (containsSub il)
    maxF := ["highest", "maximum", "max", "top"].any (containsSub il)
    minF := ["lowest", "minimum", "min", "bottom"].any (containsSub il)
    variability := ["variability", "variance", "std", "standard deviation", "stability", "spread"].any (containsSub il) }

/-- The semantic category `get_default_func_for_column` is called with. -/
inductive ColType where
  | price | percentage | boolean | derived | regular
deriving DecidableEq, Repr

/-- `get_default_func_for_column`: an explicit per-column override wins;
otherwise the role default, with only the average family consulted for
price/percentage columns and the average/median/max/min families (in that
priority) for regular numeric columns. -/
def get_default_func_for_column (agg_funcs : List (String × AggFunc))
    (fl : IntentFlags) (col : String) (ct : ColType) : AggFunc :=
  match agg_funcs.find? (fun p => p.1 = col) with
  | some p => p.2
  | none =>
    match ct with
    | .price => if fl.average then .mean else .sum
    | .percentage => if fl.average then .mean else .sum
    | .boolean => .anyA
    | .derived => .mean
    | .regular =>
      if fl.average then .mean
      else if fl.median then .median
      else if fl.maxF then .max
      else if fl.minF then .min
      else .sum

/-! ### `aggregate_data`: aggregation dictionary and output labels -/

/-- Python `func.title()` on the function's name string. -/
def funcTitle : AggFunc → String
  | .sum => "Sum" | .avg => "Avg" | .mean => "Mean" | .min => "Min"
  | .max => "Max" | .count => "Count" | .median => "Median" | .var => "Var"
  | .p90 => "P90" | .p95 => "P95" | .p99 => "P99"
  | .anyA => "Any" | .allA => "All" | .nunique => "Nunique"

/-- One resolved column of the aggregation dictionary: source column, the
pandas function applied, the output label, and whether it is one of the
percentile closures the source aggregates separately (and therefore
appends after the regular aggregation columns). -/
structure AggSpecEntry where
  col : String
  f : AggFunc
  outName : String
  isPercentile : Bool
deriving DecidableEq, Repr

/-- Resolution for a regular numeric column. -/
def regularEntry (funcs : List (String × AggFunc)) (fl : IntentFlags)
    (col : String) : AggSpecEntry :=
  match get_default_func_for_column funcs fl col .regular with
  | .avg | .mean => ⟨col, .mean, "avg_" ++ col, false⟩
  | .median => ⟨col, .median, "median_" ++ col, false⟩
  | .count => ⟨col, .count, col ++ " (Count)", false⟩
  | .var => ⟨col, .var, "var_" ++ col, false⟩
  | .p90 => ⟨col, .p90, "p90_" ++ col, true⟩
  | .p95 => ⟨col, .p95, "p95_" ++ col, true⟩
  | .p99 => ⟨col, .p99, "p99_" ++ col, true⟩
  | .max => ⟨col, .max, "max_" ++ col, false⟩
  | .min => ⟨col, .min, "min_" ++ col, false⟩
  | f => ⟨col, f, col ++ " (Sum)", false⟩

/-- Resolution for a price or percentage/rate column: only `avg`/`mean`
and `median` survive; every other selection (including explicit
overrides) falls into the `else` branch, which aggregates by sum. -/
def priceLikeEntry (funcs : List (String × AggFunc)) (fl : IntentFlags)
    (col : String) (ct : ColType) : AggSpecEntry :=
  match get_default_func_for_column funcs fl col ct with
  | .avg | .mean => ⟨col, .mean, "avg_" ++ col, false⟩
  | .median => ⟨col, .median, "median_" ++ col, false⟩
  | _ => ⟨col, .sum, col ++ " (Sum)", false⟩

/-- Resolution for a boolean column: `any` aggregates as `max` over the
0/1-converted values, `all` as `min`, anything else as `count`. -/
def booleanEntry (funcs : List (String × AggFunc)) (col : String) : AggSpecEntry :=
  match ((funcs.find? (fun p => p.1 = col)).map Prod.snd).getD .anyA with
  | .anyA => ⟨col, .max, "any_" ++ col, false⟩
  | .allA => ⟨col, .min, "all_" ++ col, false⟩
  | _ => ⟨col, .count, col ++ " (Count)", false⟩

/-- Resolution for a derived/ratio column.  (A percentile override here
would make the source hand pandas the raw string and fail inside pandas;
that corner is outside the verified scope.) -/
def derivedEntry (funcs : List (String × AggFunc)) (fl : IntentFlags)
    (col : String) : AggSpecEntry :=
  match get_default_func_for_column funcs fl col .derived with
  | .avg | .mean => ⟨col, .mean, "avg_" ++ col, false⟩
  | f => ⟨col, f, col ++ " (" ++ funcTitle f ++ ")", false⟩

/-- Resolution for an identifier column: always distinct-count, renamed
to its semantic count name; the caller's `agg_funcs` are never
consulted. -/
def idEntry (col : String) : AggSpecEntry :=
  ⟨col, .nunique, get_count_name_for_id_column col, false⟩

/-- The override-deletion step: explicit `sum`/`avg`/`mean`/`min`/`max`
requests for identifier columns are removed from `agg_funcs` before the
aggregation dictionary is built. -/
def effectiveAggFuncs (funcs : List (String × AggFunc)) (ids : List String) :
    List (String × AggFunc) :=
  funcs.filter (fun p =>
    !(ids.contains p.1 &&
      [AggFunc.sum, .avg, .mean, .min, .max].contains p.2))

/-- The aggregation dictionary in the column order the source builds it
(regular, price, percentage, boolean, derived, identifier), with
percentile entries moved to the end, as the source merges their results
after the regular aggregation.  Date-classified numeric columns appear in
no loop and are silently dropped. -/
def buildAggSpec (sem : SemanticCols) (ids : List String)
    (funcs : List (String × AggFunc)) (fl : IntentFlags) : List AggSpecEntry :=
  let entries :=
    sem.regular.map (regularEntry funcs fl)
    ++ sem.price.map (fun c => priceLikeEntry funcs fl c .price)
    ++ sem.percentage.map (fun c => priceLikeEntry funcs fl c .percentage)
    ++ sem.booleanCols.map (booleanEntry funcs)
    ++ sem.derived.map (derivedEntry funcs fl)
    ++ ids.map idEntry
  entries.filter (fun e => !e.isPercentile)
    ++ entries.filter (fun e => e.isPercentile)

/-! ### `aggregate_data`: column value conversion and grouping -/

/-- One cell under `pd.to_numeric(errors="coerce")`: integer strings
become integers, decimal strings floats, booleans 0/1, unparseable cells
missing. -/
def toNumericCell : Value → Value
  | .int n => .int n
  | .float q => .float q
  | .bool b => .int (if b then 1 else 0)
  | .str s =>
    match parseDecimal? s with
    | some q => if containsSub s "." then .float q else .int q.num
    | none => .null
  | _ => .null

/-- `pd.to_numeric` over a whole column, with the resulting dtype
coercion (integers upcast to float when the column holds any float or
missing value). -/
def toNumericColumn (cells : List Value) : List Value :=
  let conv := cells.map toNumericCell
  conv.map (coerceCell (dtypeOf conv))

/-- The boolean-column conversion of `aggregate_data`:
`astype(str).str.lower().isin(["true","1","yes","y","t"]).astype(int)`. -/
def toBoolIntCell (v : Value) : Value :=
  .int (if ["true", "1", "yes", "y", "t"].contains (pyStrLower v) then 1 else 0)

/-- Boolean conversion applied only to bool- or object-dtype columns. -/
def toBoolIntColumn (cells : List Value) : List Value :=
  if dtypeOf cells = .dbool || dtypeOf cells = .dobject then
    cells.map toBoolIntCell
  else cells

/-- The transformed cells of one column before grouping: numeric columns
of object dtype go through `pd.to_numeric`, then boolean columns through
the 0/1 conversion (whose dtype test sees the already-converted
column). -/
def aggColumnCells (df : Table) (numericCols boolCols : List String)
    (c : String) : List Value :=
  let cells := columnCells df c
  let cells1 :=
    if numericCols.contains c && dtypeOf cells = .dobject then
      toNumericColumn cells
    else cells
  if boolCols.contains c then toBoolIntColumn cells1 else cells1

/-- The table `aggregate_data` actually groups: every column transformed
as above, rows rebuilt positionally. -/
def transformAggTable (df : Table) (numericCols boolCols : List String) : Table :=
  let cols := tableColumns df
  let colCells := cols.map (fun c => (c, aggColumnCells df numericCols boolCols c))
  (List.range df.length).map (fun i =>
    colCells.map (fun p => (p.1, p.2.getD i Value.null)))

/-- The distinct non-missing group keys (pandas `groupby` drops missing
keys; the embedding keeps first-occurrence order where pandas sorts
group keys — every verified property reads groups by key, not by
position). -/
def groupKeys (t : Table) (g : String) : List Value :=
  distinctFirst ((t.map (fun r => getVal r g)).filter (fun v => !v.isNull))

/-- The rows of one group. -/
def groupRows (t : Table) (g : String) (k : Value) : Table :=
  t.filter (fun r => getVal r g = k)

/-! ### `aggregate_data`: sorting and assembly -/

/-- Comparison used for `sort_values` on homogeneous columns: numeric
before anything else numerically, strings lexicographically.  (pandas
raises on mixed incomparable columns; no verified property sorts.) -/
def valLe (a b : Value) : Bool :=
  match a.toRat?, b.toRat? with
  | some x, some y => decide (x ≤ y)
  | _, _ =>
    match a, b with
    | .str s, .str t => strLe s t
    | _, _ => true

/-- Stable sort of rows by one column, missing values last in either
direction (`na_position` default). -/
def sortRowsBy (rows : Table) (c : String) (ascending : Bool) : Table :=
  stableSort (fun r1 r2 =>
    let a := getVal r1 c
    let b := getVal r2 c
    if a.isNull && b.isNull then true
    else if a.isNull then false
    else if b.isNull then true
    else if ascending then valLe a b else valLe b a) rows

structure AggResult where
  data : Table
  rows_before : Nat
  rows_after : Nat
deriving DecidableEq, Repr

/-- The two `ValueError` families of `aggregate_data`, with the
diagnostic payload their messages enumerate: the group column name, or
the counts of detected numeric/ID/string columns together with the
available (non-group) columns. -/
inductive AggError where
  | columnNotFound (column : String)
  | noValidColumns (numericCount idCount stringCount : Nat) (available : List String)
  | noNumericColumns (numericCount idCount stringCount : Nat) (available : List String)
deriving DecidableEq, Repr

/-- The (numeric, ID, string) classification a given `aggregate_data`
request computes. -/
def classifiedOfRun (data : Table) (group_by : String)
    (agg_columns : Option (List String)) :
    List String × List String × List String :=
  classifyThree (toDF data) (candidateCols (tableColumns data) group_by agg_columns)

/-- The semantic partition of the numeric columns a given
`aggregate_data` request computes. -/
def semOfRun (data : Table) (group_by : String)
    (agg_columns : Option (List String)) : SemanticCols :=
  semanticPartition (toDF data) (classifiedOfRun data group_by agg_columns).1
    (tableColumns data)

/-- The aggregation dictionary (with output labels) a given
`aggregate_data` request builds. -/
def aggSpecOfRun (data : Table) (group_by : String)
    (agg_columns : Option (List String)) (agg_funcs : List (String × AggFunc))
    (user_intent : Option String) : List AggSpecEntry :=
  buildAggSpec (semOfRun data group_by agg_columns)
    (classifiedOfRun data group_by agg_columns).2.1
    (effectiveAggFuncs agg_funcs (classifiedOfRun data group_by agg_columns).2.1)
    (detectIntent user_intent)

/-- The value columns that survive classification filtering: the numeric
columns that land in an aggregating semantic bucket (date-classified ones
do not) together with the identifier columns. -/
def survivingValueColumns (data : Table) (group_by : String)
    (agg_columns : Option (List String)) : List String :=
  let sem := semOfRun data group_by agg_columns
  sem.regular ++ sem.price ++ sem.percentage ++ sem.booleanCols ++ sem.derived
    ++ (classifiedOfRun data group_by agg_columns).2.1

/-- The table a given `aggregate_data` request groups (after value
conversion). -/
def groupedTableOfRun (data : Table) (group_by : String)
    (agg_columns : Option (List String)) : Table :=
  transformAggTable (toDF data) (classifiedOfRun data group_by agg_columns).1
    (semOfRun data group_by agg_columns).booleanCols

/-- `aggregate_data`.  `order_by_asc` models `order_by_direction ==
"asc"`. -/
def aggregate_data (data : Table) (group_by_column : String)
    (agg_columns : Option (List String) := none)
    (agg_funcs : List (String × AggFunc) := [])
    (order_by_column : Option String := none)
    (order_by_asc : Bool := true)
    (user_intent : Option String := none) : Except AggError AggResult :=
  let allCols := tableColumns data
  if !allCols.contains group_by_column then
    .error (.columnNotFound group_by_column)
  else
    let cl := classifiedOfRun data group_by_column agg_columns
    let available := allCols.filter (fun c => c ≠ group_by_column)
    if cl.1.isEmpty && cl.2.1.isEmpty then
      .error (.noValidColumns cl.1.length cl.2.1.length cl.2.2.length available)
    else
      let spec := aggSpecOfRun data group_by_column agg_columns agg_funcs user_intent
      if spec.isEmpty then
        .error (.noNumericColumns cl.1.length cl.2.1.length cl.2.2.length available)
      else
        let t := groupedTableOfRun data group_by_column agg_columns
        let keys := groupKeys t group_by_column
        let rows := keys.map (fun k =>
          (group_by_column, k) ::
            spec.map (fun e =>
              (e.outName, aggApply e.f (columnCells (groupRows t group_by_column k) e.col))))
        let sorted :=
          match order_by_column with
          | none => rows
          | some ob =>
            let resultCols := group_by_column :: spec.map (fun e => e.outName)
            match resultCols.find? (fun c =>
                c = ob || strStartsWith (lowerStr c) (lowerStr ob)) with
            | some sc => sortRowsBy rows sc order_by_asc
            | none => rows
        .ok ⟨round_numeric_values_to_2_decimals sorted, data.length, rows.length⟩

/-! ### Outlier detection (`identify_outliers`)

The embedding covers the default `iqr` method.  The `zscore` flag
compares against an irrational standard deviation, and
`isolation_forest`/`local_outlier_factor` delegate to an external
statistical library; all three are outside the verified scope.  The
column-selection step and its `No numeric columns` error happen before
any method dispatch in the source and are therefore method-independent.
The per-column `std_dev` statistic is likewise omitted (irrational); no
verified property reads it. -/

structure OutlierRec where
  row_index : Nat
  column : String
  value : ℚ
  iqr_lower : ℚ
  iqr_upper : ℚ
deriving DecidableEq, Repr

structure ColStats where
  mean : ℚ
  median : ℚ
  q1 : ℚ
  q3 : ℚ
  iqr : ℚ
  lower_bound : ℚ
  upper_bound : ℚ
deriving DecidableEq, Repr

structure IdentifyResult where
  outliers : List OutlierRec
  total_outliers : Nat
  columns_analyzed : List String
  outliers_by_column : List (String × Nat)
  statistics : List (String × ColStats)
deriving DecidableEq, Repr

/-- The per-column statistics of `identify_outliers` over the present
values of a column (assumed nonempty; callers guard). -/
def colStatsOf (vals : List ℚ) (threshold : ℚ) : ColStats :=
  let q1 := quantileQ vals (25/100)
  let q3 := quantileQ vals (75/100)
  let iqr := q3 - q1
  { mean := vals.sum / (vals.length : ℚ)
    median := quantileQ vals (1/2)
    q1 := q1
    q3 := q3
    iqr := iqr
    lower_bound := q1 - threshold * iqr
    upper_bound := q3 + threshold * iqr }

/-- The IQR flags of one column: every present value strictly outside
`[Q1 - t*IQR, Q3 + t*IQR]`, with its row index. -/
def columnOutliers (cells : List Value) (c : String) (lower upper : ℚ) :
    List OutlierRec :=
  cells.enum.filterMap (fun iv =>
    match iv.2.toRat? with
    | none => none
    | some q =>
      if q < lower || q > upper then
        some ⟨iv.1, c, q, lower, upper⟩
      else none)

/-- `identify_outliers` with the default `iqr` method.  Columns with no
present value are skipped, not failed. -/
def identify_outliers (data : Table) (column : Option String := none)
    (threshold : Option ℚ := none) : Except String IdentifyResult :=
  let df := toDF data
  let th := threshold.getD (3/2)
  let colsE : Except String (List String) :=
    match column with
    | some c =>
      if (tableColumns data).contains c then .ok [c]
      else .error ("Column " ++ c ++ " not found in data")
    | none =>
      let nc := (tableColumns data).filter (fun c => isNumericDtype (columnCells df c))
      if nc.isEmpty then .error "No numeric columns found in data" else .ok nc
  match colsE with
  | .error e => .error e
  | .ok cols =>
    let perCol := cols.filterMap (fun c =>
      let cells := columnCells df c
      let vals := presentRats cells
      if vals.isEmpty then none
      else
        let st := colStatsOf vals th
        some (c, st, columnOutliers cells c st.lower_bound st.upper_bound))
    let outliers := (perCol.map (fun p => p.2.2)).flatten
    .ok { outliers := outliers
          total_outliers := outliers.length
          columns_analyzed := cols
          outliers_by_column := perCol.map (fun p => (p.1, p.2.2.length))
          statistics := perCol.map (fun p => (p.1, p.2.1)) }

/-! ### Outlier treatment (`treat_outliers`) -/

inductive Treatment where
  | remove | cap | winsorize | transform | impute
deriving DecidableEq, Repr

/-- The `treatment_value` argument: a named statistic or a numeric
constant. -/
inductive TreatValue where
  | mean | median | mode | tmin | tmax | num (q : ℚ)
deriving DecidableEq, Repr

/-- Rewrite the cells of one column at the given row indices. -/
def updateCellsAt (df : Table) (c : String) (idxs : List Nat)
    (f : Value → Value) : Table :=
  df.enum.map (fun ir =>
    if idxs.contains ir.1 then
      ir.2.map (fun p => if p.1 = c then (p.1, f p.2) else p)
    else ir.2)

/-- Rewrite every cell of one column. -/
def mapColumn (df : Table) (c : String) (f : Value → Value) : Table :=
  df.map (fun r => r.map (fun p => if p.1 = c then (p.1, f p.2) else p))

/-- Clamp a present value to `[lower, upper]`, leaving other cells
untouched (the source only applies this at flagged, hence present,
cells). -/
def clampCell (lower upper : ℚ) (v : Value) : Value :=
  match v.toRat? with
  | some q =>
    if q < lower then .float lower
    else if q > upper then .float upper
    else v
  | none => v

/-- pandas `Series.mode().iloc[0]`: the smallest among the most frequent
values (mode lists ties in ascending order). -/
def modeOf (vals : List ℚ) : ℚ :=
  let cand := distinctFirst vals
  let best := cand.foldl (fun acc x =>
    let cx := (vals.filter (fun y => y = x)).length
    match acc with
    | none => some (x, cx)
    | some (bx, cb) =>
      if cx > cb || (cx = cb && x < bx) then some (x, cx) else acc) none
  match best with
  | some (x, _) => x
  | none => 0

/-- The transcendental `transform` of one cell: `log1p` when the whole
column is positive, else the signed square root; missing stays missing. -/
def transformCell (k : TransKind) (v : Value) : Value :=
  match v.toRat? with
  | some q => .xform k q
  | none => v

/-- Displayed form of a `treatment_value` in the treatment description. -/
def treatValueStr : TreatValue → String
  | .mean => "mean" | .median => "median" | .mode => "mode"
  | .tmin => "min" | .tmax => "max"
  | .num q =>
    if q.den = 1 then toString q.num ++ ".0"
    else toString q.num ++ "/" ++ toString q.den

def treatmentStr : Treatment → String
  | .remove => "remove" | .cap => "cap" | .winsorize => "winsorize"
  | .transform => "transform" | .impute => "impute"

structure TreatResult where
  data : Table
  rows_before : Nat
  rows_after : Nat
  outliers_treated : Nat
  treatment_applied : String
  columns_treated : List String
  outliers_by_column : List (String × Nat)
deriving DecidableEq, Repr

/-- The flagged row indices per column, in column first-occurrence order
(the source accumulates them in a dict of sets; each index appears at
most once per column by construction of `identify_outliers`). -/
def outlierIndicesByColumn (recs : List OutlierRec) : List (String × List Nat) :=
  let cols := distinctFirst (recs.map (fun r => r.column))
  cols.map (fun c =>
    (c, (recs.filter (fun r => r.column = c)).map (fun r => r.row_index)))

/-- Treatment of one column for the non-`remove` strategies, threading
the working table (the source mutates `df` column by column). -/
def treatOneColumn (df : Table) (c : String) (idxs : List Nat)
    (stats : Option ColStats) (treatment : Treatment)
    (treatment_value : Option TreatValue) : Table :=
  let cells := columnCells df c
  let vals := presentRats cells
  match treatment with
  | .remove => df
  | .cap =>
    let lower0 := match stats with | some st => st.lower_bound | none => 0
    let upper0 := match stats with | some st => st.upper_bound | none => 0
    let lower :=
      match treatment_value with
      | some (.num q) => if q ≠ 0 && q < 0 then quantileQ vals (|q| / 100) else lower0
      | _ => lower0
    let upper :=
      match treatment_value with
      | some (.num q) => if q ≠ 0 && 0 < q then quantileQ vals (q / 100) else upper0
      | _ => upper0
    updateCellsAt df c idxs (clampCell lower upper)
  | .winsorize =>
    updateCellsAt df c idxs (clampCell (quantileQ vals (1/100)) (quantileQ vals (99/100)))
  | .transform =>
    let allPos := cells.all (fun v =>
      match v.toRat? with
      | some q => decide (0 < q)
      | none => false)
    mapColumn df c (transformCell (if allPos then .log1p else .signedSqrt))
  | .impute =>
    if vals.isEmpty then df
    else
      let iv :=
        match treatment_value with
        | some .mean => vals.sum / (vals.length : ℚ)
        | some .median => quantileQ vals (1/2)
        | some .mode => modeOf vals
        | some .tmin => (stableSort (fun a b => decide (a ≤ b)) vals).headD 0
        | some .tmax => (stableSort (fun a b => decide (a ≤ b)) vals).getLastD 0
        | some (.num q) => q
        | none => quantileQ vals (1/2)
      updateCellsAt df c idxs (fun _ => .float iv)

/-- `treat_outliers` with the default `iqr` detection method: re-runs
`identify_outliers` internally, then applies the chosen strategy.  The
final table before output rounding. -/
def treatCore (data : Table) (column : Option String := none)
    (threshold : Option ℚ := none) (treatment : Treatment := .remove)
    (treatment_value : Option TreatValue := none) :
    Except String (Table × Nat × List String × List (String × Nat)) :=
  let df := toDF data
  match identify_outliers data column threshold with
  | .error e => .error e
  | .ok res =>
    let byCol := outlierIndicesByColumn res.outliers
    let columnsTreated := byCol.map Prod.fst
    let columnsToTreat :=
      match column with
      | some c => if (tableColumns data).contains c then [c] else []
      | none => (tableColumns data).filter (fun c => isNumericDtype (columnCells df c))
    let treatedCols := columnsToTreat.filterMap (fun c =>
      (byCol.find? (fun p => p.1 = c)).map (fun p => (c, p.2)))
    let total := (treatedCols.map (fun p => p.2.length)).sum
    let obc := treatedCols.map (fun p => (p.1, p.2.length))
    match treatment with
    | .remove =>
      let allIdx := (treatedCols.map Prod.snd).flatten
      let validIdx := allIdx.filter (fun i => i < df.length)
      let newDf := df.enum.filterMap (fun ir =>
        if validIdx.contains ir.1 then none else some ir.2)
      .ok (newDf, total, columnsTreated, obc)
    | _ =>
      let newDf := treatedCols.foldl (fun acc p =>
        treatOneColumn acc p.1 p.2
          ((res.statistics.find? (fun q => q.1 = p.1)).map Prod.snd)
          treatment treatment_value) df
      .ok (newDf, total, columnsTreated, obc)

/-- `treat_outliers`: `treatCore` plus output conversion, 2-decimal
rounding, and the treatment description string. -/
def treat_outliers (data : Table) (column : Option String := none)
    (threshold : Option ℚ := none) (treatment : Treatment := .remove)
    (treatment_value : Option TreatValue := none) :
    Except String TreatResult :=
  match treatCore data column threshold treatment treatment_value with
  | .error e => .error e
  | .ok (newDf, total, columnsTreated, obc) =>
    let desc0 := treatmentStr treatment ++ " using iqr method"
    let desc :=
      match treatment_value with
      | some (.num q) => if q = 0 then desc0 else desc0 ++ " with " ++ treatValueStr (.num q)
      | some tv => desc0 ++ " with " ++ treatValueStr tv
      | none => desc0
    .ok { data := round_numeric_values_to_2_decimals newDf
          rows_before := data.length
          rows_after := newDf.length
          outliers_treated := total
          treatment_applied := desc
          columns_treated := columnsTreated
          outliers_by_column := obc }

/-! ### Pivot reshaper (`pivot_table`) -/

/-- Python `str(v)` on the scalar values a cell can hold (no lowering). -/
def pyStr : Value → String
  | .null => "nan"
  | .int n => toString n
  | .float q =>
    if q.den = 1 then toString q.num ++ ".0"
    else toString q.num ++ "/" ++ toString q.den
  | .str s => s
  | .bool b => if b then "True" else "False"
  | .xform _ q => "~" ++ toString q.num

/-- The flattened pivot column name `<value_col>_<index_value>` (count
name for identifier columns, spaces of the index value replaced by
underscores). -/
def pivotColName (idCols : List String) (vcol : String) (iv : Value) : String :=
  (if idCols.contains vcol then get_count_name_for_id_column vcol else vcol)
    ++ "_" ++ strReplace (pyStr iv) " " "_"

/-- The aggregation function pivoting applies to a regular value column:
the caller's override (`avg` normalized to `mean`) or `sum`. -/
def pivotFuncFor (funcs : List (String × AggFunc)) (c : String) : AggFunc :=
  match (funcs.find? (fun p => p.1 = c)).map Prod.snd with
  | some .avg | some .mean => .mean
  | some .count => .count
  | some f => f
  | none => .sum

/-- The preserved-column tuple of a row. -/
def preservedTuple (preserved : List String) (r : Row) : List Value :=
  preserved.map (fun p => getVal r p)

/-- One pivot cell: the aggregation of value column `c` over the rows
whose preserved tuple is `tup` and whose index value is `iv`; missing
when no row matches. -/
def pivotCellValue (validRows : Table) (preserved : List String)
    (f : AggFunc) (c : String) (tup : List Value) (iv : Value)
    (index_column : String) : Value :=
  let rs := validRows.filter (fun r =>
    preservedTuple preserved r = tup && getVal r index_column = iv)
  if rs.isEmpty then .null
  else aggApply f (rs.map (fun r => getVal r c))

/-- State of the best-candidate scan that reconstructs the index column:
the current best (aggregated value, index value) pair, if any. -/
abbrev ReconAcc := Option (Value × Value)

def reconImproves (acc : ReconAcc) (v : Value) : Bool :=
  match acc with
  | none => true
  | some (mv, _) =>
    match v.toRat?, mv.toRat? with
    | some x, some y => decide (y < x)
    | _, _ => false

/-- Python `value != 0` for a pivot cell. -/
def vNeqZero (v : Value) : Bool :=
  match v.toRat? with
  | some q => decide (q ≠ 0)
  | none => true

/-- The per-column step of the index reconstruction scan (source lines
1727-1753): a non-missing, non-zero pivot cell first tries to match a
known index value inside the column name; failing that (with no match
found so far) it parses the trailing name parts. -/
def reconStep (preserved : List String) (indexValues : List Value)
    (row : Row) (acc : ReconAcc) (c : String) : ReconAcc :=
  if preserved.contains c || !containsSub c "_" then acc
  else
    let v := getVal row c
    if v.isNull || !vNeqZero v then acc
    else
      let cl := lowerStr c
      let firstMatch := indexValues.find? (fun sv =>
        let svc := lowerStr (strReplace (pyStr sv) " " "_")
        containsSub cl svc || strEndsWith cl ("_" ++ svc))
      let acc1 :=
        match firstMatch with
        | some sv => if reconImproves acc v then some (v, sv) else acc
        | none => acc
      match acc1 with
      | some _ => acc1
      | none =>
        let parts := strSplitOn c "_"
        if parts.length > 1 then
          let potential :=
            if parts.length > 2 then
              strIntercalate "_" (parts.drop (parts.length - 2))
            else parts.getLastD ""
          if (indexValues.map (fun w => strReplace (pyStr w) " " "_")).contains potential then
            if reconImproves acc1 v then some (v, .str potential) else acc1
          else acc1
        else acc1

/-- Reconstructed index value for one result row: the scan above,
falling back to the first original row with the same (stringified)
preserved values, then to the first known index value. -/
def reconstructIndex (df : Table) (preserved : List String)
    (indexValues : List Value) (resultCols : List String)
    (index_column : String) (row : Row) : Value :=
  match resultCols.foldl (reconStep preserved indexValues row) none with
  | some (_, sv) => sv
  | none =>
    let matching := df.find? (fun orig =>
      preserved.all (fun pc => pyStr (getVal orig pc) = pyStr (getVal row pc)))
    match matching with
    | some orig => getVal orig index_column
    | none => indexValues.headD .null

structure PivotResult where
  data : Table
  rows_before : Nat
  rows_after : Nat
deriving DecidableEq, Repr

/-- The distinct non-missing index values a `pivot_table` request turns
into column suffixes, in first-occurrence order. -/
def pivotIndexValues (data : Table) (index_column : String) : List Value :=
  distinctFirst
    (((toDF data).map (fun r => getVal r index_column)).filter (fun v => !v.isNull))

/-- The candidate value columns of a `pivot_table` request: the caller's
list, or every numeric non-index column. -/
def pivotRawValueCols (data : Table) (index_column : String)
    (value_columns : Option (List String)) : List String :=
  let autoCols := (tableColumns data).filter (fun c =>
    c ≠ index_column && is_numeric_column c (columnCells (toDF data) c))
  match value_columns with
  | some cs => if cs.isEmpty then autoCols else cs
  | none => autoCols

/-- The (regular, ID, string) classification of a `pivot_table`
request's value columns. -/
def pivotClassified (data : Table) (index_column : String)
    (value_columns : Option (List String)) :
    List String × List String × List String :=
  classifyThree (toDF data) (pivotRawValueCols data index_column value_columns)

/-- The preserved (grouping) columns of a `pivot_table` request: every
column that is neither the index column nor an aggregated value
column. -/
def pivotPreserved (data : Table) (index_column : String)
    (value_columns : Option (List String)) : List String :=
  let cl := pivotClassified data index_column value_columns
  (tableColumns data).filter (fun c =>
    c ≠ index_column && !cl.1.contains c && !cl.2.1.contains c)

/-- The rows pivoting aggregates: those whose preserved-column keys are
all present (pandas drops rows with a missing group key). -/
def pivotValidRows (data : Table) (index_column : String)
    (value_columns : Option (List String)) : Table :=
  (toDF data).filter (fun r =>
    (pivotPreserved data index_column value_columns).all
      (fun p => !(getVal r p).isNull))

/-- The aggregation function pivoting applies to a value column
(`nunique` for identifiers, the override-or-`sum` rule otherwise). -/
def pivotColFunc (data : Table) (index_column : String)
    (value_columns : Option (List String))
    (pivot_funcs : List (String × AggFunc)) (c : String) : AggFunc :=
  if (pivotClassified data index_column value_columns).2.1.contains c then
    .nunique
  else pivotFuncFor pivot_funcs c

/-- One pivot cell of a `pivot_table` request, before output rounding. -/
def pivotCellOfRun (data : Table) (index_column : String)
    (value_columns : Option (List String))
    (pivot_funcs : List (String × AggFunc))
    (tup : List Value) (c : String) (iv : Value) : Value :=
  pivotCellValue (pivotValidRows data index_column value_columns)
    (pivotPreserved data index_column value_columns)
    (pivotColFunc data index_column value_columns pivot_funcs c) c tup iv
    index_column

/-- `pivot_table`.  Group keys and generated columns are looked up by
name/tuple in every verified property, so the embedding keeps
first-occurrence order for row tuples (matching the final
`drop_duplicates`-driven merge of the source) and sorts the pivoted
index values (matching the pandas column ordering). -/
def pivot_table (data : Table) (index_column : String)
    (value_columns : Option (List String) := none)
    (pivot_funcs : List (String × AggFunc) := []) :
    Except String PivotResult :=
  let df := toDF data
  let allCols := tableColumns data
  if !allCols.contains index_column then
    .error ("Column " ++ index_column ++ " not found in data")
  else
    let indexValues := pivotIndexValues data index_column
    let cl := pivotClassified data index_column value_columns
    let preserved := pivotPreserved data index_column value_columns
    if cl.1.isEmpty && cl.2.1.isEmpty then
      .error "No columns to aggregate in pivot"
    else
      let allValueCols := cl.1 ++ cl.2.1
      let colFunc := pivotColFunc data index_column value_columns pivot_funcs
      let sortedIvs := stableSort (fun a b => valLe a b) indexValues
      if preserved.isEmpty then
        -- No preserved columns: summary pivot, one row per value column,
        -- columns named by the raw index values (no MultiIndex flatten).
        let rows := allValueCols.map (fun c =>
          sortedIvs.map (fun iv =>
            (strReplace (pyStr iv) " " "_",
             aggApply (colFunc c)
               ((df.filter (fun r => getVal r index_column = iv)).map
                 (fun r => getVal r c)))))

        .ok ⟨round_numeric_values_to_2_decimals rows, data.length, rows.length⟩
      else
        let groupTuples := distinctFirst (df.map (preservedTuple preserved))
        let validTuples := distinctFirst
          ((pivotValidRows data index_column value_columns).map (preservedTuple preserved))
        let pairs := (allValueCols.map (fun c => sortedIvs.map (fun iv => (c, iv)))).flatten
        let cellOf := pivotCellOfRun data index_column value_columns pivot_funcs
        let keptPairs := pairs.filter (fun p =>
          validTuples.any (fun tup => !(cellOf tup p.1 p.2).isNull))
        let baseRows := groupTuples.map (fun tup =>
          (preserved.zip tup)
            ++ keptPairs.map (fun p => (pivotColName cl.2.1 p.1 p.2, cellOf tup p.1 p.2)))
        let resultCols := preserved ++ keptPairs.map (fun p => pivotColName cl.2.1 p.1 p.2)
        let withIndex :=
          if resultCols.contains index_column then baseRows
          else baseRows.map (fun row =>
            row ++ [(index_column,
              reconstructIndex df preserved indexValues resultCols index_column row)])
        let finalCols :=
          if resultCols.contains index_column then resultCols
          else resultCols ++ [index_column]
        let sortedRows :=
          if finalCols.contains index_column then
            sortRowsBy withIndex index_column true
          else withIndex
        .ok ⟨round_numeric_values_to_2_decimals sortedRows, data.length,
             sortedRows.length⟩

/-! ## General lemmas -/

theorem getVal_nil (c : String) : getVal [] c = .null := rfl

theorem getVal_cons (p : String × Value) (r : Row) (c : String) :
    getVal (p :: r) c = if p.1 = c then p.2 else getVal r c := by
  by_cases h : p.1 = c <;> simp [getVal, List.find?_cons, h]

theorem getVal_map_round (r : Row) (c : String) :
    getVal (r.map (fun p => (p.1, roundValue p.2))) c = roundValue (getVal r c) := by
  induction r with
  | nil => rfl
  | cons p r ih =>
    by_cases h : p.1 = c <;>
      simp [List.map_cons, getVal_cons, h, ih]

/-! ## C8: rounding idempotence -/

/-- C8: the 2-decimal output rounding step is idempotent — for every list
of rows, applying `round_numeric_values_to_2_decimals` twice yields the
same result as applying it once. -/
theorem c8_round_idempotent (data : Table) :
    round_numeric_values_to_2_decimals (round_numeric_values_to_2_decimals data)
      = round_numeric_values_to_2_decimals data := by
  unfold round_numeric_values_to_2_decimals
  simp [List.map_map, Function.comp_def, roundValue_idem]

/-! ## C4: IQR outlier detection -/

/-- On a single requested column with at least one present value,
`identify_outliers` returns exactly the IQR flags and statistics of that
column. -/
theorem identify_single_ok (data : Table) (c : String)
    (hc : (tableColumns data).contains c = true)
    (hv : (presentRats (columnCells (toDF data) c)).isEmpty = false) :
    identify_outliers data (some c) none =
      .ok { outliers := columnOutliers (columnCells (toDF data) c) c
              (colStatsOf (presentRats (columnCells (toDF data) c)) (3/2)).lower_bound
              (colStatsOf (presentRats (columnCells (toDF data) c)) (3/2)).upper_bound
            total_outliers := (columnOutliers (columnCells (toDF data) c) c
              (colStatsOf (presentRats (columnCells (toDF data) c)) (3/2)).lower_bound
              (colStatsOf (presentRats (columnCells (toDF data) c)) (3/2)).upper_bound).length
            columns_analyzed := [c]
            outliers_by_column := [(c, (columnOutliers (columnCells (toDF data) c) c
              (colStatsOf (presentRats (columnCells (toDF data) c)) (3/2)).lower_bound
              (colStatsOf (presentRats (columnCells (toDF data) c)) (3/2)).upper_bound).length)]
            statistics := [(c, colStatsOf (presentRats (columnCells (toDF data) c)) (3/2))] } := by
  have hc' : c ∈ tableColumns data := by simpa using hc
  have hv' : ¬ (presentRats (columnCells (toDF data) c) = []) := by
    simpa using hv
  unfold identify_outliers
  simp [hc', hv', List.filterMap_cons]

/-- Membership in the IQR flag list of a column is exactly: the cell at
that row is present and its value lies strictly outside the bounds. -/
theorem mem_columnOutliers_iff (cells : List Value) (c : String) (lo hi : ℚ)
    (i : ℕ) (q : ℚ) :
    (∃ rec ∈ columnOutliers cells c lo hi, rec.row_index = i ∧ rec.value = q) ↔
      ((cells.getD i .null).toRat? = some q ∧ (q < lo ∨ q > hi)) := by
  unfold columnOutliers
  constructor
  · rintro ⟨rec, hmem, hidx, hval⟩
    rcases List.mem_filterMap.mp hmem with ⟨⟨j, v⟩, hj, hf⟩
    split at hf
    · exact absurd hf (by simp)
    · rename_i qv hvr
      split at hf
      · rename_i hcond
        injection hf with hf'
        subst hf'
        dsimp only at hidx hval hvr
        subst hidx
        subst hval
        have hget := List.mem_enum_iff_get?.mp hj
        dsimp only at hget
        refine ⟨?_, by simpa using hcond⟩
        show ((cells.get? j).getD Value.null).toRat? = some qv
        rw [hget]
        simpa using hvr
      · exact absurd hf (by simp)
  · rintro ⟨hget, hcond⟩
    have hlen : i < cells.length := by
      by_contra hge
      have hnone : cells.get? i = none := List.get?_eq_none.mpr (by omega)
      have hnull : cells.getD i .null = .null := by
        show (cells.get? i).getD .null = .null
        rw [hnone]
        rfl
      rw [hnull] at hget
      simp [Value.toRat?] at hget
    obtain ⟨v, hvget⟩ : ∃ v, cells.get? i = some v :=
      ⟨cells.get ⟨i, hlen⟩, List.get?_eq_get hlen⟩
    have hvr : v.toRat? = some q := by
      have hgd : cells.getD i .null = v := by
        show (cells.get? i).getD .null = v
        rw [hvget]
        rfl
      rw [hgd] at hget
      exact hget
    refine ⟨⟨i, c, q, lo, hi⟩,
      List.mem_filterMap.mpr ⟨(i, v), List.mem_enum_iff_get?.mpr hvget, ?_⟩, rfl, rfl⟩
    simp only [hvr]
    rcases hcond with h | h <;> simp [h]

/-- C4: `identify_outliers` with method `iqr` and no threshold argument
uses threshold 1.5: the bounds are `Q1 - 1.5*IQR` and `Q3 + 1.5*IQR`
with quartiles linearly interpolated over the present values, and a
present value is flagged exactly when it lies strictly outside them. -/
theorem c4_iqr_default_flags_iff (data : Table) (c : String)
    (res : IdentifyResult)
    (h : identify_outliers data (some c) none = .ok res)
    (hc : (tableColumns data).contains c = true)
    (hv : (presentRats (columnCells (toDF data) c)).isEmpty = false) :
    (colStatsOf (presentRats (columnCells (toDF data) c)) (3/2)).lower_bound
        = quantileQ (presentRats (columnCells (toDF data) c)) (25/100)
          - (3/2) * (quantileQ (presentRats (columnCells (toDF data) c)) (75/100)
              - quantileQ (presentRats (columnCells (toDF data) c)) (25/100)) ∧
    (colStatsOf (presentRats (columnCells (toDF data) c)) (3/2)).upper_bound
        = quantileQ (presentRats (columnCells (toDF data) c)) (75/100)
          + (3/2) * (quantileQ (presentRats (columnCells (toDF data) c)) (75/100)
              - quantileQ (presentRats (columnCells (toDF data) c)) (25/100)) ∧
    ∀ i q,
      (∃ rec ∈ res.outliers, rec.row_index = i ∧ rec.value = q) ↔
        (((columnCells (toDF data) c).getD i .null).toRat? = some q ∧
          (q < (colStatsOf (presentRats (columnCells (toDF data) c)) (3/2)).lower_bound
            ∨ q > (colStatsOf (presentRats (columnCells (toDF data) c)) (3/2)).upper_bound)) := by
  refine ⟨rfl, rfl, ?_⟩
  intro i q
  have hid := identify_single_ok data c hc hv
  rw [hid] at h
  have hres := Except.ok.inj h
  rw [← hres]
  exact mem_columnOutliers_iff (columnCells (toDF data) c) c _ _ i q

def c4ex : Table :=
  [[("x", .int 1)], [("x", .int 2)], [("x", .int 3)],
   [("x", .int 4)], [("x", .int 5)], [("x", .int 100)]]

def c4res : IdentifyResult :=
  { outliers := [⟨5, "x", 100, -3/2, 17/2⟩]
    total_outliers := 1
    columns_analyzed := ["x"]
    outliers_by_column := [("x", 1)]
    statistics := [("x", ⟨115/6, 7/2, 9/4, 19/4, 5/2, -3/2, 17/2⟩)] }

theorem c4_witness :
    identify_outliers c4ex (some "x") none = .ok c4res ∧
    c4res.outliers.map (fun r => (r.row_index, r.value)) = [(5, (100 : ℚ))] ∧
    (∀ i q,
      (∃ rec ∈ c4res.outliers, rec.row_index = i ∧ rec.value = q) ↔
        (((columnCells (toDF c4ex) "x").getD i .null).toRat? = some q ∧
          (q < (colStatsOf (presentRats (columnCells (toDF c4ex) "x")) (3/2)).lower_bound
            ∨ q > (colStatsOf (presentRats (columnCells (toDF c4ex) "x")) (3/2)).upper_bound))) :=
  ⟨by decide, by decide,
    (c4_iqr_default_flags_iff c4ex "x" c4res (by decide) (by decide) (by decide)).2.2⟩

/-! ## C10: no numeric columns -/

def noNumericMsg : String := "No numeric columns found in data"

/-- C10: when called without a column argument on a table with no
natively numeric column (string-encoded numbers are not coerced here),
`identify_outliers` fails with the `No numeric columns` error rather
than returning an empty outlier list, and `treat_outliers` — which
re-runs it internally before doing anything else — fails identically for
every threshold, strategy and strategy value. -/
theorem c10_no_numeric_columns_error (data : Table)
    (h : ((tableColumns data).filter
      (fun c => isNumericDtype (columnCells (toDF data) c))).isEmpty = true) :
    identify_outliers data none none = .error noNumericMsg ∧
    ∀ (th : Option ℚ) (tr : Treatment) (tv : Option TreatValue),
      treat_outliers data none th tr tv = .error noNumericMsg := by
  have hid : ∀ th : Option ℚ, identify_outliers data none th = .error noNumericMsg := by
    intro th
    unfold identify_outliers
    simp [h, noNumericMsg]
  refine ⟨hid none, ?_⟩
  intro th tr tv
  unfold treat_outliers treatCore
  rw [hid th]

def c10ex : Table :=
  [[("name", .str "a"), ("val", .str "12")],
   [("name", .str "b"), ("val", .str "34")]]

theorem c10_witness :
    identify_outliers c10ex none none = .error noNumericMsg ∧
    ∀ (th : Option ℚ) (tr : Treatment) (tv : Option TreatValue),
      treat_outliers c10ex none th tr tv = .error noNumericMsg :=
  c10_no_numeric_columns_error c10ex (by decide)

/-! ## Classification fold lemmas -/

theorem classifyStep_numeric_mem (df : Table) (acc : List String × List String × List String)
    (col c : String) (h : c ∈ (classifyStep df acc col).1) :
    c ∈ acc.1 ∨ (c = col ∧ is_id_column c = false
      ∧ is_numeric_column c (columnCells df c) = true) := by
  unfold classifyStep at h
  split_ifs at h with h1 h2 h3
  · exact Or.inl h
  · exact Or.inl h
  · rcases List.mem_append.mp h with h | h
    · exact Or.inl h
    · rcases List.mem_singleton.mp h with rfl
      exact Or.inr ⟨rfl, by simpa using h1, by simpa using h3⟩
  · exact Or.inl h

theorem classifyStep_ids_mem (df : Table) (acc : List String × List String × List String)
    (col c : String) (h : c ∈ (classifyStep df acc col).2.1) :
    c ∈ acc.2.1 ∨ (c = col ∧ is_id_column c = true) := by
  unfold classifyStep at h
  split_ifs at h with h1 h2 h3
  · rcases List.mem_append.mp h with h | h
    · exact Or.inl h
    · rcases List.mem_singleton.mp h with rfl
      exact Or.inr ⟨rfl, by simpa using h1⟩
  · exact Or.inl h
  · exact Or.inl h
  · exact Or.inl h

theorem classifyStep_ids_mono (df : Table) (acc : List String × List String × List String)
    (col c : String) (h : c ∈ acc.2.1) : c ∈ (classifyStep df acc col).2.1 := by
  unfold classifyStep
  split_ifs <;> simp [h]

theorem classify_foldl_numeric (df : Table) (cols : List String) :
    ∀ (acc : List String × List String × List String) (c : String),
      c ∈ (List.foldl (classifyStep df) acc cols).1 →
        c ∈ acc.1 ∨ (is_id_column c = false
          ∧ is_numeric_column c (columnCells df c) = true) := by
  induction cols with
  | nil => intro acc c h; exact Or.inl h
  | cons col rest ih =>
    intro acc c h
    rcases ih (classifyStep df acc col) c h with h' | h'
    · rcases classifyStep_numeric_mem df acc col c h' with h'' | h''
      · exact Or.inl h''
      · exact Or.inr ⟨h''.2.1, h''.2.2⟩
    · exact Or.inr h'

theorem classify_foldl_ids (df : Table) (cols : List String) :
    ∀ (acc : List String × List String × List String) (c : String),
      c ∈ (List.foldl (classifyStep df) acc cols).2.1 →
        c ∈ acc.2.1 ∨ is_id_column c = true := by
  induction cols with
  | nil => intro acc c h; exact Or.inl h
  | cons col rest ih =>
    intro acc c h
    rcases ih (classifyStep df acc col) c h with h' | h'
    · rcases classifyStep_ids_mem df acc col c h' with h'' | h''
      · exact Or.inl h''
      · exact Or.inr h''.2
    · exact Or.inr h'

theorem classify_foldl_ids_mono (df : Table) (cols : List String) :
    ∀ (acc : List String × List String × List String) (c : String),
      c ∈ acc.2.1 → c ∈ (List.foldl (classifyStep df) acc cols).2.1 := by
  induction cols with
  | nil => intro acc c h; exact h
  | cons col rest ih =>
    intro acc c h
    exact ih (classifyStep df acc col) c (classifyStep_ids_mono df acc col c h)

theorem classify_foldl_ids_complete (df : Table) (cols : List String) :
    ∀ (acc : List String × List String × List String) (c : String),
      c ∈ cols → is_id_column c = true →
        c ∈ (List.foldl (classifyStep df) acc cols).2.1 := by
  induction cols with
  | nil => intro acc c h; cases h
  | cons col rest ih =>
    intro acc c h hid
    rcases List.mem_cons.mp h with rfl | h'
    · apply classify_foldl_ids_mono df rest
      unfold classifyStep
      rw [if_pos hid]
      simp
    · exact ih (classifyStep df acc col) c h' hid

/-- Members of the numeric bucket are non-ID, numeric-classified columns;
members of the ID bucket are ID-named columns. -/
theorem classifyThree_numeric_char (df : Table) (cols : List String) (c : String)
    (h : c ∈ (classifyThree df cols).1) :
    is_id_column c = false ∧ is_numeric_column c (columnCells df c) = true := by
  rcases classify_foldl_numeric df cols ([], [], []) c h with h' | h'
  · cases h'
  · exact h'

theorem classifyThree_ids_char (df : Table) (cols : List String) (c : String)
    (h : c ∈ (classifyThree df cols).2.1) : is_id_column c = true := by
  rcases classify_foldl_ids df cols ([], [], []) c h with h' | h'
  · cases h'
  · exact h'

theorem classifyThree_ids_complete (df : Table) (cols : List String) (c : String)
    (hc : c ∈ cols) (hid : is_id_column c = true) :
    c ∈ (classifyThree df cols).2.1 :=
  classify_foldl_ids_complete df cols ([], [], []) c hc hid

/-- Step-level membership characterization for the semantic partition. -/
theorem semStep_mem (df : Table) (allCols : List String) (acc : SemanticCols)
    (col c : String) :
    (c ∈ (semStep df allCols acc col).price →
      c ∈ acc.price ∨ (c = col ∧ is_price_column c = true)) ∧
    (c ∈ (semStep df allCols acc col).percentage →
      c ∈ acc.percentage ∨ (c = col ∧ is_price_column c = false
        ∧ is_percentage_or_rate_column c = true)) ∧
    (c ∈ (semStep df allCols acc col).booleanCols →
      c ∈ acc.booleanCols ∨ (c = col ∧ is_price_column c = false
        ∧ is_percentage_or_rate_column c = false
        ∧ is_boolean_column c (columnCells df c) = true)) ∧
    (c ∈ (semStep df allCols acc col).dateCols →
      c ∈ acc.dateCols ∨ (c = col ∧ is_price_column c = false
        ∧ is_percentage_or_rate_column c = false
        ∧ is_boolean_column c (columnCells df c) = false
        ∧ is_date_column c (columnCells df c) = true)) ∧
    (c ∈ (semStep df allCols acc col).derived →
      c ∈ acc.derived ∨ (c = col ∧ is_price_column c = false
        ∧ is_percentage_or_rate_column c = false
        ∧ is_boolean_column c (columnCells df c) = false
        ∧ is_date_column c (columnCells df c) = false
        ∧ is_derived_or_ratio_column c allCols = true)) ∧
    (c ∈ (semStep df allCols acc col).regular →
      c ∈ acc.regular ∨ (c = col ∧ is_price_column c = false
        ∧ is_percentage_or_rate_column c = false
        ∧ is_boolean_column c (columnCells df c) = false
        ∧ is_date_column c (columnCells df c) = false
        ∧ is_derived_or_ratio_column c allCols = false)) := by
  unfold semStep
  split_ifs with h1 h2 h3 h4 h5 <;>
    refine ⟨?_, ?_, ?_, ?_, ?_, ?_⟩ <;> intro hc <;>
    first
      | exact Or.inl hc
      | (rcases List.mem_append.mp hc with h | h
         · exact Or.inl h
         · rcases List.mem_singleton.mp h with rfl
           refine Or.inr ⟨rfl, ?_⟩
           simp_all)

/-- Fold-level membership characterization for the semantic partition:
each bucket holds only numeric columns satisfying (exactly) its
first-match predicate chain. -/
theorem sem_foldl_mem (df : Table) (allCols : List String) (ns : List String) :
    ∀ (acc : SemanticCols) (c : String),
      (c ∈ (List.foldl (semStep df allCols) acc ns).price →
        c ∈ acc.price ∨ (c ∈ ns ∧ is_price_column c = true)) ∧
      (c ∈ (List.foldl (semStep df allCols) acc ns).percentage →
        c ∈ acc.percentage ∨ (c ∈ ns ∧ is_price_column c = false
          ∧ is_percentage_or_rate_column c = true)) ∧
      (c ∈ (List.foldl (semStep df allCols) acc ns).booleanCols →
        c ∈ acc.booleanCols ∨ (c ∈ ns ∧ is_price_column c = false
          ∧ is_percentage_or_rate_column c = false
          ∧ is_boolean_column c (columnCells df c) = true)) ∧
      (c ∈ (List.foldl (semStep df allCols) acc ns).dateCols →
        c ∈ acc.dateCols ∨ (c ∈ ns ∧ is_price_column c = false
          ∧ is_percentage_or_rate_column c = false
          ∧ is_boolean_column c (columnCells df c) = false
          ∧ is_date_column c (columnCells df c) = true)) ∧
      (c ∈ (List.foldl (semStep df allCols) acc ns).derived →
        c ∈ acc.derived ∨ (c ∈ ns ∧ is_price_column c = false
          ∧ is_percentage_or_rate_column c = false
          ∧ is_boolean_column c (columnCells df c) = false
          ∧ is_date_column c (columnCells df c) = false
          ∧ is_derived_or_ratio_column c allCols = true)) ∧
      (c ∈ (List.foldl (semStep df allCols) acc ns).regular →
        c ∈ acc.regular ∨ (c ∈ ns ∧ is_price_column c = false
          ∧ is_percentage_or_rate_column c = false
          ∧ is_boolean_column c (columnCells df c) = false
          ∧ is_date_column c (columnCells df c) = false
          ∧ is_derived_or_ratio_column c allCols = false)) := by
  induction ns with
  | nil =>
    intro acc c
    refine ⟨fun h => Or.inl h, fun h => Or.inl h, fun h => Or.inl h,
      fun h => Or.inl h, fun h => Or.inl h, fun h => Or.inl h⟩
  | cons col rest ih =>
    intro acc c
    have step := semStep_mem df allCols acc col c
    have tail := ih (semStep df allCols acc col) c
    refine ⟨fun h => ?_, fun h => ?_, fun h => ?_, fun h => ?_, fun h => ?_,
      fun h => ?_⟩
    · rcases tail.1 h with h' | h'
      · rcases step.1 h' with h'' | h''
        · exact Or.inl h''
        · exact Or.inr ⟨by simp [h''.1], h''.2⟩
      · exact Or.inr ⟨by simp [h'.1], h'.2⟩
    · rcases tail.2.1 h with h' | h'
      · rcases step.2.1 h' with h'' | h''
        · exact Or.inl h''
        · exact Or.inr ⟨by simp [h''.1], h''.2⟩
      · exact Or.inr ⟨by simp [h'.1], h'.2⟩
    · rcases tail.2.2.1 h with h' | h'
      · rcases step.2.2.1 h' with h'' | h''
        · exact Or.inl h''
        · exact Or.inr ⟨by simp [h''.1], h''.2⟩
      · exact Or.inr ⟨by simp [h'.1], h'.2⟩
    · rcases tail.2.2.2.1 h with h' | h'
      · rcases step.2.2.2.1 h' with h'' | h''
        · exact Or.inl h''
        · exact Or.inr ⟨by simp [h''.1], h''.2⟩
      · exact Or.inr ⟨by simp [h'.1], h'.2⟩
    · rcases tail.2.2.2.2.1 h with h' | h'
      · rcases step.2.2.2.2.1 h' with h'' | h''
        · exact Or.inl h''
        · exact Or.inr ⟨by simp [h''.1], h''.2⟩
      · exact Or.inr ⟨by simp [h'.1], h'.2⟩
    · rcases tail.2.2.2.2.2 h with h' | h'
      · rcases step.2.2.2.2.2 h' with h'' | h''
        · exact Or.inl h''
        · exact Or.inr ⟨by simp [h''.1], h''.2⟩
      · exact Or.inr ⟨by simp [h'.1], h'.2⟩

theorem semanticPartition_price_char (df : Table) (ns allCols : List String)
    (c : String) (h : c ∈ (semanticPartition df ns allCols).price) :
    c ∈ ns ∧ is_price_column c = true := by
  rcases (sem_foldl_mem df allCols ns ⟨[], [], [], [], [], []⟩ c).1 h with h' | h'
  · cases h'
  · exact h'

theorem semanticPartition_percentage_char (df : Table) (ns allCols : List String)
    (c : String) (h : c ∈ (semanticPartition df ns allCols).percentage) :
    c ∈ ns ∧ is_price_column c = false ∧ is_percentage_or_rate_column c = true := by
  rcases (sem_foldl_mem df allCols ns ⟨[], [], [], [], [], []⟩ c).2.1 h with h' | h'
  · cases h'
  · exact h'

theorem semanticPartition_boolean_char (df : Table) (ns allCols : List String)
    (c : String) (h : c ∈ (semanticPartition df ns allCols).booleanCols) :
    c ∈ ns ∧ is_price_column c = false ∧ is_percentage_or_rate_column c = false
      ∧ is_boolean_column c (columnCells df c) = true := by
  rcases (sem_foldl_mem df allCols ns ⟨[], [], [], [], [], []⟩ c).2.2.1 h with h' | h'
  · cases h'
  · exact h'

theorem semanticPartition_derived_char (df : Table) (ns allCols : List String)
    (c : String) (h : c ∈ (semanticPartition df ns allCols).derived) :
    c ∈ ns ∧ is_price_column c = false ∧ is_percentage_or_rate_column c = false
      ∧ is_boolean_column c (columnCells df c) = false
      ∧ is_date_column c (columnCells df c) = false
      ∧ is_derived_or_ratio_column c allCols = true := by
  rcases (sem_foldl_mem df allCols ns ⟨[], [], [], [], [], []⟩ c).2.2.2.2.1 h with h' | h'
  · cases h'
  · exact h'

theorem semanticPartition_regular_char (df : Table) (ns allCols : List String)
    (c : String) (h : c ∈ (semanticPartition df ns allCols).regular) :
    c ∈ ns ∧ is_price_column c = false ∧ is_percentage_or_rate_column c = false
      ∧ is_boolean_column c (columnCells df c) = false
      ∧ is_date_column c (columnCells df c) = false
      ∧ is_derived_or_ratio_column c allCols = false := by
  rcases (sem_foldl_mem df allCols ns ⟨[], [], [], [], [], []⟩ c).2.2.2.2.2 h with h' | h'
  · cases h'
  · exact h'

/-! ## Aggregation-spec entry lemmas -/

theorem regularEntry_col (funcs : List (String × AggFunc)) (fl : IntentFlags)
    (c : String) : (regularEntry funcs fl c).col = c := by
  unfold regularEntry
  cases get_default_func_for_column funcs fl c .regular <;> rfl

theorem priceLikeEntry_col (funcs : List (String × AggFunc)) (fl : IntentFlags)
    (c : String) (ct : ColType) : (priceLikeEntry funcs fl c ct).col = c := by
  unfold priceLikeEntry
  cases get_default_func_for_column funcs fl c ct <;> rfl

theorem booleanEntry_col (funcs : List (String × AggFunc)) (c : String) :
    (booleanEntry funcs c).col = c := by
  unfold booleanEntry
  cases ((funcs.find? (fun p => p.1 = c)).map Prod.snd).getD .anyA <;> rfl

theorem derivedEntry_col (funcs : List (String × AggFunc)) (fl : IntentFlags)
    (c : String) : (derivedEntry funcs fl c).col = c := by
  unfold derivedEntry
  cases get_default_func_for_column funcs fl c .derived <;> rfl

/-- Every entry of the aggregation dictionary originates from exactly one
of the six build loops. -/
theorem buildAggSpec_origin (sem : SemanticCols) (ids : List String)
    (funcs : List (String × AggFunc)) (fl : IntentFlags) (e : AggSpecEntry)
    (he : e ∈ buildAggSpec sem ids funcs fl) :
    (∃ c ∈ sem.regular, e = regularEntry funcs fl c) ∨
    (∃ c ∈ sem.price, e = priceLikeEntry funcs fl c .price) ∨
    (∃ c ∈ sem.percentage, e = priceLikeEntry funcs fl c .percentage) ∨
    (∃ c ∈ sem.booleanCols, e = booleanEntry funcs c) ∨
    (∃ c ∈ sem.derived, e = derivedEntry funcs fl c) ∨
    (∃ c ∈ ids, e = idEntry c) := by
  unfold buildAggSpec at he
  have he' : e ∈ sem.regular.map (regularEntry funcs fl)
      ++ sem.price.map (fun c => priceLikeEntry funcs fl c .price)
      ++ sem.percentage.map (fun c => priceLikeEntry funcs fl c .percentage)
      ++ sem.booleanCols.map (booleanEntry funcs)
      ++ sem.derived.map (derivedEntry funcs fl)
      ++ ids.map idEntry := by
    rcases List.mem_append.mp he with h | h
    · exact List.mem_of_mem_filter h
    · exact List.mem_of_mem_filter h
  simp only [List.mem_append, List.mem_map] at he'
  rcases he' with ((((⟨c, hc, hce⟩ | ⟨c, hc, hce⟩) | ⟨c, hc, hce⟩) | ⟨c, hc, hce⟩)
    | ⟨c, hc, hce⟩) | ⟨c, hc, hce⟩
  · exact Or.inl ⟨c, hc, hce.symm⟩
  · exact Or.inr (Or.inl ⟨c, hc, hce.symm⟩)
  · exact Or.inr (Or.inr (Or.inl ⟨c, hc, hce.symm⟩))
  · exact Or.inr (Or.inr (Or.inr (Or.inl ⟨c, hc, hce.symm⟩)))
  · exact Or.inr (Or.inr (Or.inr (Or.inr (Or.inl ⟨c, hc, hce.symm⟩))))
  · exact Or.inr (Or.inr (Or.inr (Or.inr (Or.inr ⟨c, hc, hce.symm⟩))))

/-! ## C1: identifier columns are always aggregated by distinct-count -/

/-- Every aggregation-dictionary entry for an identifier-classified value
column uses `nunique`. -/
theorem aggSpec_id_col_nunique (data : Table) (g : String)
    (aggCols : Option (List String)) (funcs : List (String × AggFunc))
    (intent : Option String) (c : String)
    (hc : c ∈ (classifiedOfRun data g aggCols).2.1) :
    ∀ e ∈ aggSpecOfRun data g aggCols funcs intent, e.col = c →
      e.f = .nunique ∧ e.f ≠ .sum ∧ e.f ≠ .mean ∧ e.f ≠ .min ∧ e.f ≠ .max := by
  intro e he hcol
  have hid : is_id_column c = true := classifyThree_ids_char _ _ c hc
  have hnotnum : ∀ h' : c ∈ (classifiedOfRun data g aggCols).1, False := by
    intro h'
    have := classifyThree_numeric_char _ _ c h'
    rw [hid] at this
    exact absurd this.1 (by simp)
  unfold aggSpecOfRun at he
  rcases buildAggSpec_origin _ _ _ _ e he with h | h | h | h | h | h
  · obtain ⟨c', hc', rfl⟩ := h
    rw [regularEntry_col] at hcol
    subst hcol
    exact absurd (semanticPartition_regular_char _ _ _ _ hc').1
      (fun hn => hnotnum hn)
  · obtain ⟨c', hc', rfl⟩ := h
    rw [priceLikeEntry_col] at hcol
    subst hcol
    exact absurd (semanticPartition_price_char _ _ _ _ hc').1
      (fun hn => hnotnum hn)
  · obtain ⟨c', hc', rfl⟩ := h
    rw [priceLikeEntry_col] at hcol
    subst hcol
    exact absurd (semanticPartition_percentage_char _ _ _ _ hc').1
      (fun hn => hnotnum hn)
  · obtain ⟨c', hc', rfl⟩ := h
    rw [booleanEntry_col] at hcol
    subst hcol
    exact absurd (semanticPartition_boolean_char _ _ _ _ hc').1
      (fun hn => hnotnum hn)
  · obtain ⟨c', hc', rfl⟩ := h
    rw [derivedEntry_col] at hcol
    subst hcol
    exact absurd (semanticPartition_derived_char _ _ _ _ hc').1
      (fun hn => hnotnum hn)
  · obtain ⟨c', hc', rfl⟩ := h
    refine ⟨rfl, ?_, ?_, ?_, ?_⟩ <;> (show AggFunc.nunique ≠ _) <;> decide

/-- C1: in any `aggregate_data` request, a value column classified as an
identifier is aggregated by `nunique` (distinct-count) — never by sum,
mean, min or max — regardless of any explicit function override the
caller supplied for it. -/
theorem c1_id_columns_always_nunique (data : Table) (g : String)
    (aggCols : Option (List String)) (funcs : List (String × AggFunc))
    (intent : Option String) (c : String)
    (hc : c ∈ (classifiedOfRun data g aggCols).2.1) :
    ∀ e ∈ aggSpecOfRun data g aggCols funcs intent, e.col = c →
      e.f = .nunique ∧ e.f ≠ .sum ∧ e.f ≠ .mean ∧ e.f ≠ .min ∧ e.f ≠ .max :=
  aggSpec_id_col_nunique data g aggCols funcs intent c hc

def c1ex : Table :=
  [[("region", .str "N"), ("customer_id", .int 1)],
   [("region", .str "N"), ("customer_id", .int 1)],
   [("region", .str "N"), ("customer_id", .int 2)],
   [("region", .str "S"), ("customer_id", .int 3)]]

theorem c1_witness :
    "customer_id" ∈ (classifiedOfRun c1ex "region" none).2.1 ∧
    (aggSpecOfRun c1ex "region" none [("customer_id", .sum)] none).map
      (fun e => (e.col, e.f, e.outName))
      = [("customer_id", .nunique, "unique_customers")] ∧
    (∀ e ∈ aggSpecOfRun c1ex "region" none [("customer_id", .sum)] none,
      e.col = "customer_id" →
        e.f = .nunique ∧ e.f ≠ .sum ∧ e.f ≠ .mean ∧ e.f ≠ .min ∧ e.f ≠ .max) :=
  ⟨by decide, by decide,
    c1_id_columns_always_nunique c1ex "region" none [("customer_id", .sum)]
      none "customer_id" (by decide)⟩

/-! ## C5: median intent on monetary/rate columns

The spec claims the first matching intent family always wins, so a
median-family intent should select `median` for monetary/rate columns
without an explicit override.  In the source,
`get_default_func_for_column` consults only the average family for the
`price`/`percentage` roles and returns `sum` otherwise, and the
price/percentage processing loops aggregate anything that is not
`mean`/`median` by sum — so the median intent is silently ignored for
those roles (it takes effect only for regular numeric columns). -/

theorem find?_filter_none {α : Type} (l : List (String × α)) (c : String)
    (q : String × α → Bool) (h : l.find? (fun p => p.1 = c) = none) :
    (l.filter q).find? (fun p => p.1 = c) = none := by
  rw [List.find?_eq_none] at h ⊢
  intro x hx
  exact h x (List.mem_of_mem_filter hx)

theorem priceLikeEntry_no_override_sum (funcs : List (String × AggFunc))
    (fl : IntentFlags) (c : String) (ct : ColType)
    (hf : funcs.find? (fun p => p.1 = c) = none)
    (hnavg : fl.average = false) (hct : ct = .price ∨ ct = .percentage) :
    priceLikeEntry funcs fl c ct = ⟨c, .sum, c ++ " (Sum)", false⟩ := by
  have hdef : get_default_func_for_column funcs fl c ct = .sum := by
    unfold get_default_func_for_column
    rw [hf]
    rcases hct with rfl | rfl <;> simp [hnavg]
  unfold priceLikeEntry
  rw [hdef]

def c5ex : Table :=
  [[("region", .str "A"), ("price", .int 10)],
   [("region", .str "A"), ("price", .int 20)]]

/-- C5 counterexample: with the intent text `median` (median family
matches, average family does not) and no explicit override, the selected
aggregation for the monetary column `price` is `sum`, labelled
`price (Sum)` — not `median` as the claim states. -/
theorem c5_counterexample :
    (detectIntent (some "median")).median = true ∧
    (detectIntent (some "median")).average = false ∧
    (∃ e ∈ aggSpecOfRun c5ex "region" none [] (some "median"),
      e.col = "price" ∧ e.f = .sum ∧ e.f ≠ .median) ∧
    aggregate_data c5ex "region" none [] none true (some "median")
      = .ok ⟨[[("region", .str "A"), ("price (Sum)", .int 30)]], 2, 1⟩ := by
  refine ⟨by decide, by decide, ?_, by decide⟩
  refine ⟨⟨"price", .sum, "price (Sum)", false⟩, by decide, rfl, rfl, by decide⟩

/-- C5 (amended): for a monetary or rate column with no explicit
per-column override, when the intent text matches the median family and
not the earlier-priority average family, the selected aggregation is
`sum` with label `<col> (Sum)` — the median intent is ignored for these
roles and only affects regular numeric columns. -/
theorem c5_price_median_intent_sum (data : Table) (g : String)
    (aggCols : Option (List String)) (funcs : List (String × AggFunc))
    (intent : Option String) (c : String)
    (hnid : is_id_column c = false)
    (hpr : is_price_column c = true ∨ is_percentage_or_rate_column c = true)
    (hnof : funcs.find? (fun p => p.1 = c) = none)
    (hmed : (detectIntent intent).median = true)
    (hnavg : (detectIntent intent).average = false) :
    ∀ e ∈ aggSpecOfRun data g aggCols funcs intent, e.col = c →
      e.f = .sum ∧ e.outName = c ++ " (Sum)" := by
  intro e he hcol
  have hnof' : (effectiveAggFuncs funcs
      (classifiedOfRun data g aggCols).2.1).find? (fun p => p.1 = c) = none :=
    find?_filter_none funcs c _ hnof
  unfold aggSpecOfRun at he
  rcases buildAggSpec_origin _ _ _ _ e he with h | h | h | h | h | h
  · obtain ⟨c', hc', rfl⟩ := h
    rw [regularEntry_col] at hcol
    subst hcol
    have hch := semanticPartition_regular_char _ _ _ _ hc'
    rcases hpr with hp | hp
    · rw [hch.2.1] at hp; cases hp
    · rw [hch.2.2.1] at hp; cases hp
  · obtain ⟨c', hc', rfl⟩ := h
    rw [priceLikeEntry_col] at hcol
    subst hcol
    rw [priceLikeEntry_no_override_sum _ _ _ _ hnof' hnavg (Or.inl rfl)]
    exact ⟨rfl, rfl⟩
  · obtain ⟨c', hc', rfl⟩ := h
    rw [priceLikeEntry_col] at hcol
    subst hcol
    rw [priceLikeEntry_no_override_sum _ _ _ _ hnof' hnavg (Or.inr rfl)]
    exact ⟨rfl, rfl⟩
  · obtain ⟨c', hc', rfl⟩ := h
    rw [booleanEntry_col] at hcol
    subst hcol
    have hch := semanticPartition_boolean_char _ _ _ _ hc'
    rcases hpr with hp | hp
    · rw [hch.2.1] at hp; cases hp
    · rw [hch.2.2.1] at hp; cases hp
  · obtain ⟨c', hc', rfl⟩ := h
    rw [derivedEntry_col] at hcol
    subst hcol
    have hch := semanticPartition_derived_char _ _ _ _ hc'
    rcases hpr with hp | hp
    · rw [hch.2.1] at hp; cases hp
    · rw [hch.2.2.1] at hp; cases hp
  · obtain ⟨c', hc', rfl⟩ := h
    have hcc : c' = c := hcol
    subst hcc
    have hid := classifyThree_ids_char _ _ c' hc'
    rw [hnid] at hid
    cases hid

theorem c5_witness :
    is_id_column "price" = false ∧
    is_price_column "price" = true ∧
    (∀ e ∈ aggSpecOfRun c5ex "region" none [] (some "median"),
      e.col = "price" → e.f = .sum ∧ e.outName = "price" ++ " (Sum)") :=
  ⟨by decide, by decide,
    c5_price_median_intent_sum c5ex "region" none [] (some "median") "price"
      (by decide) (Or.inl (by decide)) (by decide) (by decide) (by decide)⟩

/-! ## C7: the failure conditions of `aggregate_data` -/

theorem buildAggSpec_length (sem : SemanticCols) (ids : List String)
    (funcs : List (String × AggFunc)) (fl : IntentFlags) :
    (buildAggSpec sem ids funcs fl).length =
      sem.regular.length + sem.price.length + sem.percentage.length
        + sem.booleanCols.length + sem.derived.length + ids.length := by
  unfold buildAggSpec
  rw [List.length_append]
  have hsplit := List.length_eq_length_filter_add
    (l := sem.regular.map (regularEntry funcs fl)
      ++ sem.price.map (fun c => priceLikeEntry funcs fl c .price)
      ++ sem.percentage.map (fun c => priceLikeEntry funcs fl c .percentage)
      ++ sem.booleanCols.map (booleanEntry funcs)
      ++ sem.derived.map (derivedEntry funcs fl)
      ++ ids.map idEntry)
    (fun e => e.isPercentile)
  simp only [List.length_append, List.length_map] at hsplit
  omega

/-- The aggregation dictionary is empty exactly when no value column
survives classification filtering. -/
theorem aggSpecOfRun_empty_iff (data : Table) (g : String)
    (aggCols : Option (List String)) (funcs : List (String × AggFunc))
    (intent : Option String) :
    (aggSpecOfRun data g aggCols funcs intent = []) ↔
      survivingValueColumns data g aggCols = [] := by
  rw [← List.length_eq_zero, ← List.length_eq_zero]
  unfold aggSpecOfRun survivingValueColumns
  rw [buildAggSpec_length]
  simp [List.length_append]
  tauto

/-- C7: `aggregate_data` fails exactly when the group column is absent or
no value column survives classification filtering; in the latter cases
the error payload enumerates the detected numeric/ID/string counts and
the available (non-group) columns. -/
theorem c7_aggregate_error_iff (data : Table) (g : String)
    (aggCols : Option (List String)) (funcs : List (String × AggFunc))
    (ob : Option String) (asc : Bool) (intent : Option String) :
    ((∃ err, aggregate_data data g aggCols funcs ob asc intent = .error err) ↔
      ((tableColumns data).contains g = false ∨
        survivingValueColumns data g aggCols = [])) ∧
    (∀ err, aggregate_data data g aggCols funcs ob asc intent = .error err →
      (err = .columnNotFound g ∧ (tableColumns data).contains g = false) ∨
      ((err = .noValidColumns (classifiedOfRun data g aggCols).1.length
            (classifiedOfRun data g aggCols).2.1.length
            (classifiedOfRun data g aggCols).2.2.length
            ((tableColumns data).filter (fun c => c ≠ g))
        ∨ err = .noNumericColumns (classifiedOfRun data g aggCols).1.length
            (classifiedOfRun data g aggCols).2.1.length
            (classifiedOfRun data g aggCols).2.2.length
            ((tableColumns data).filter (fun c => c ≠ g)))
        ∧ survivingValueColumns data g aggCols = [])) := by
  simp only [aggregate_data]
  split_ifs with hA hB hC
  · have hg : (tableColumns data).contains g = false := by simpa using hA
    refine ⟨⟨fun _ => Or.inl hg, fun _ => ⟨_, rfl⟩⟩, ?_⟩
    intro err herr
    injection herr with herr'
    exact Or.inl ⟨herr'.symm, hg⟩
  · have hids : (classifiedOfRun data g aggCols).2.1 = [] := by
      have := (Bool.and_eq_true _ _).mp hB
      exact List.isEmpty_iff.mp this.2
    have hnum : (classifiedOfRun data g aggCols).1 = [] := by
      have := (Bool.and_eq_true _ _).mp hB
      exact List.isEmpty_iff.mp this.1
    have hsurv : survivingValueColumns data g aggCols = [] := by
      unfold survivingValueColumns semOfRun
      rw [hnum, hids]
      rfl
    refine ⟨⟨fun _ => Or.inr hsurv, fun _ => ⟨_, rfl⟩⟩, ?_⟩
    intro err herr
    injection herr with herr'
    exact Or.inr ⟨Or.inl herr'.symm, hsurv⟩
  · have hsurv : survivingValueColumns data g aggCols = [] :=
      (aggSpecOfRun_empty_iff data g aggCols funcs intent).mp
        (List.isEmpty_iff.mp hC)
    refine ⟨⟨fun _ => Or.inr hsurv, fun _ => ⟨_, rfl⟩⟩, ?_⟩
    intro err herr
    injection herr with herr'
    exact Or.inr ⟨Or.inr herr'.symm, hsurv⟩
  · have hsurv : ¬ survivingValueColumns data g aggCols = [] := by
      intro hs
      exact hC (List.isEmpty_iff.mpr
        ((aggSpecOfRun_empty_iff data g aggCols funcs intent).mpr hs))
    constructor
    · constructor
      · rintro ⟨err, herr⟩
        exact absurd herr (by simp)
      · rintro (h | h)
        · simp at h
          exact (h (by simpa using hA)).elim
        · exact absurd h hsurv
    · intro err herr
      exact absurd herr (by simp)
/-! ## C3: the `remove` outlier strategy -/

theorem columnOutliers_col (cells : List Value) (c : String) (lo hi : ℚ) :
    ∀ rec ∈ columnOutliers cells c lo hi, rec.column = c := by
  intro rec hmem
  unfold columnOutliers at hmem
  rcases List.mem_filterMap.mp hmem with ⟨⟨j, v⟩, _, hf⟩
  split at hf
  · exact absurd hf (by simp)
  · split at hf
    · injection hf with hf'
      rw [← hf']
    · exact absurd hf (by simp)

/-- The flag list of one column, seen as the filtered-and-indexed cells. -/
theorem columnOutliers_map_rowIndex (cells : List Value) (c : String) (lo hi : ℚ) :
    (columnOutliers cells c lo hi).map (fun r => r.row_index)
      = (cells.enum.filter (fun iv =>
          match iv.2.toRat? with
          | none => false
          | some q => decide (q < lo) || decide (q > hi))).map Prod.fst := by
  unfold columnOutliers
  generalize cells.enum = l
  induction l with
  | nil => rfl
  | cons iv rest ih =>
    rcases hvr : iv.2.toRat? with _ | q
    · simp only [List.filterMap_cons, List.filter_cons, hvr]
      exact ih
    · simp only [List.filterMap_cons, List.filter_cons, hvr]
      by_cases hcond : (decide (q < lo) || decide (q > hi)) = true
      · simp only [hcond, if_true, List.map_cons]
        rw [ih]
      · simp only [hcond, if_false, Bool.false_eq_true]
        exact ih

theorem columnOutliers_rowIndex_nodup (cells : List Value) (c : String) (lo hi : ℚ) :
    ((columnOutliers cells c lo hi).map (fun r => r.row_index)).Nodup := by
  rw [columnOutliers_map_rowIndex]
  have hsub : ((cells.enum.filter (fun iv =>
      match iv.2.toRat? with
      | none => false
      | some q => decide (q < lo) || decide (q > hi))).map Prod.fst).Sublist
      (cells.enum.map Prod.fst) :=
    (List.filter_sublist _).map Prod.fst
  have hnd : (cells.enum.map Prod.fst).Nodup := by
    rw [List.enum_map_fst]
    exact List.nodup_range _
  exact hnd.sublist hsub

theorem columnOutliers_rowIndex_lt (cells : List Value) (c : String) (lo hi : ℚ) :
    ∀ i ∈ (columnOutliers cells c lo hi).map (fun r => r.row_index),
      i < cells.length := by
  rw [columnOutliers_map_rowIndex]
  intro i hi'
  have hmem : i ∈ cells.enum.map Prod.fst :=
    (List.Sublist.map Prod.fst (List.filter_sublist _)).mem hi'
  rw [List.enum_map_fst] at hmem
  exact List.mem_range.mp hmem

theorem distinctFirst_all_eq {α : Type} [DecidableEq α] (c : α) :
    ∀ l : List α, l ≠ [] → (∀ x ∈ l, x = c) → distinctFirst l = [c] := by
  have haux : ∀ (l : List α), (∀ x ∈ l, x = c) →
      List.foldl (fun acc x => if acc.contains x then acc else acc ++ [x]) [c] l
        = [c] := by
    intro l
    induction l with
    | nil => intro _; rfl
    | cons x rest ih =>
      intro h
      have hx : x = c := h x (by simp)
      subst hx
      simp only [List.foldl_cons, List.contains_cons]
      rw [if_pos (by simp)]
      exact ih (fun y hy => h y (by simp [hy]))
  intro l hne h
  cases l with
  | nil => exact absurd rfl hne
  | cons x rest =>
    have hx : x = c := h x (by simp)
    subst hx
    unfold distinctFirst
    simp only [List.foldl_cons, List.contains_nil, if_neg]
    rw [show ([] ++ [x]) = [x] from rfl]
    exact haux rest (fun y hy => h y (by simp [hy]))

theorem outlierIndicesByColumn_single (recs : List OutlierRec) (c : String)
    (hne : recs ≠ []) (h : ∀ r ∈ recs, r.column = c) :
    outlierIndicesByColumn recs = [(c, recs.map (fun r => r.row_index))] := by
  unfold outlierIndicesByColumn
  have hcols : distinctFirst (recs.map (fun r => r.column)) = [c] := by
    apply distinctFirst_all_eq
    · simp [hne]
    · intro x hx
      rcases List.mem_map.mp hx with ⟨r, hr, rfl⟩
      exact h r hr
  rw [hcols]
  have hfilter : recs.filter (fun r => r.column = c) = recs :=
    List.filter_eq_self.mpr (fun r hr => by simp [h r hr])
  simp [hfilter]

theorem enum_filterMap_remove {α : Type} (l : List (ℕ × α)) (q : ℕ → Bool) :
    l.filterMap (fun ir => if q ir.1 then none else some ir.2)
      = (l.filter (fun ir => !q ir.1)).map Prod.snd := by
  induction l with
  | nil => rfl
  | cons ir rest ih =>
    by_cases hc : q ir.1
    · simp [List.filterMap_cons, List.filter_cons, hc, ih]
    · simp [List.filterMap_cons, List.filter_cons, hc, ih]

theorem countP_range_contains (S : List ℕ) (n : ℕ)
    (hnd : S.Nodup) (hlt : ∀ i ∈ S, i < n) :
    (List.range n).countP (fun i => S.contains i) = S.length := by
  rw [List.countP_eq_length_filter]
  have hnd1 : ((List.range n).filter (fun i => S.contains i)).Nodup :=
    (List.nodup_range n).sublist (List.filter_sublist _)
  have hsub1 : ((List.range n).filter (fun i => S.contains i)) ⊆ S := by
    intro x hx
    have := List.of_mem_filter hx
    simpa using this
  have hsub2 : S ⊆ ((List.range n).filter (fun i => S.contains i)) := by
    intro x hx
    apply List.mem_filter.mpr
    exact ⟨List.mem_range.mpr (hlt x hx), by simpa using hx⟩
  have h1 := (List.subperm_of_subset hnd1 hsub1).length_le
  have h2 := (List.subperm_of_subset hnd hsub2).length_le
  omega

theorem length_remove_filter {α : Type} (l : List α) (S : List ℕ)
    (hnd : S.Nodup) (hlt : ∀ i ∈ S, i < l.length) :
    ((l.enum.filter (fun ir => !S.contains ir.1)).map Prod.snd).length
      = l.length - S.length := by
  rw [List.length_map]
  have hsplit := List.length_eq_length_filter_add
    (l := l.enum) (fun ir => S.contains ir.1)
  have hc : (l.enum.filter (fun ir => S.contains ir.1)).length = S.length := by
    rw [← List.countP_eq_length_filter]
    have hmapped : l.enum.countP (fun ir => S.contains ir.1)
        = (l.enum.map Prod.fst).countP (fun i => S.contains i) := by
      rw [List.countP_map]
      rfl
    rw [hmapped, List.enum_map_fst]
    exact countP_range_contains S l.length hnd hlt
  have hen : l.enum.length = l.length := List.enum_length
  omega

theorem toDF_length (data : Table) : (toDF data).length = data.length := by
  unfold toDF
  simp

theorem columnCells_length (t : Table) (c : String) :
    (columnCells t c).length = t.length := by
  unfold columnCells
  simp

/-- Every outlier record a single-column `identify_outliers` run returns
is about that column. -/
theorem identify_single_col (data : Table) (c : String) (th : Option ℚ)
    (ires : IdentifyResult)
    (hi : identify_outliers data (some c) th = .ok ires) :
    ∀ rec ∈ ires.outliers, rec.column = c := by
  unfold identify_outliers at hi
  dsimp only at hi
  by_cases hc : (tableColumns data).contains c = true
  · rw [if_pos hc] at hi
    dsimp only at hi
    by_cases hv : (presentRats (columnCells (toDF data) c)).isEmpty = true
    · simp only [List.filterMap_cons, List.filterMap_nil, hv, if_true] at hi
      injection hi with hi'
      rw [← hi']
      intro rec hmem
      simp at hmem
    · have hv'' : (presentRats (columnCells (toDF data) c)).isEmpty = false := by
        simpa using hv
      simp only [List.filterMap_cons, List.filterMap_nil, hv'',
        Bool.false_eq_true, if_false] at hi
      injection hi with hi'
      rw [← hi']
      intro rec hmem
      have hmem' : rec ∈ columnOutliers (columnCells (toDF data) c) c
          (colStatsOf (presentRats (columnCells (toDF data) c))
            (th.getD (3/2))).lower_bound
          (colStatsOf (presentRats (columnCells (toDF data) c))
            (th.getD (3/2))).upper_bound := by
        simpa using hmem
      exact columnOutliers_col _ _ _ _ rec hmem'
  · rw [if_neg hc] at hi
    exact absurd hi (by simp)

/-- The flagged row indices of a single-column run are distinct and in
range. -/
theorem identify_single_indices (data : Table) (c : String) (th : Option ℚ)
    (ires : IdentifyResult)
    (hi : identify_outliers data (some c) th = .ok ires) :
    (ires.outliers.map (fun r => r.row_index)).Nodup ∧
    ∀ i ∈ ires.outliers.map (fun r => r.row_index), i < (toDF data).length := by
  unfold identify_outliers at hi
  dsimp only at hi
  by_cases hc : (tableColumns data).contains c = true
  · rw [if_pos hc] at hi
    dsimp only at hi
    by_cases hv : (presentRats (columnCells (toDF data) c)).isEmpty = true
    · simp only [List.filterMap_cons, List.filterMap_nil, hv, if_true] at hi
      injection hi with hi'
      rw [← hi']
      constructor
      · simp
      · intro i hi''
        simp at hi''
    · have hv'' : (presentRats (columnCells (toDF data) c)).isEmpty = false := by
        simpa using hv
      simp only [List.filterMap_cons, List.filterMap_nil, hv'',
        Bool.false_eq_true, if_false] at hi
      injection hi with hi'
      rw [← hi']
      have hcells := columnCells_length (toDF data) c
      constructor
      · have := columnOutliers_rowIndex_nodup (columnCells (toDF data) c) c
          (colStatsOf (presentRats (columnCells (toDF data) c))
            (th.getD (3/2))).lower_bound
          (colStatsOf (presentRats (columnCells (toDF data) c))
            (th.getD (3/2))).upper_bound
        simpa using this
      · intro i hi''
        have hi3 : i ∈ (columnOutliers (columnCells (toDF data) c) c
            (colStatsOf (presentRats (columnCells (toDF data) c))
              (th.getD (3/2))).lower_bound
            (colStatsOf (presentRats (columnCells (toDF data) c))
              (th.getD (3/2))).upper_bound).map (fun r => r.row_index) := by
          simpa using hi''
        have := columnOutliers_rowIndex_lt (columnCells (toDF data) c) c
          _ _ i hi3
        rw [hcells] at this
        exact this
  · rw [if_neg hc] at hi
    exact absurd hi (by simp)

/-- C3 (amended): `treat_outliers` with strategy `remove` on a single
column drops exactly the flagged row indices (collected before any
deletion): the result is the surviving rows, in order, passed through the
global 2-decimal output rounding, and the row count drops by exactly the
number of flagged rows. -/
theorem c3_remove_drops_flagged (data : Table) (c : String)
    (ires : IdentifyResult) (res : TreatResult)
    (hi : identify_outliers data (some c) none = .ok ires)
    (ht : treat_outliers data (some c) none .remove none = .ok res)
    (hc : (tableColumns data).contains c = true) :
    res.data = round_numeric_values_to_2_decimals
        (((toDF data).enum.filter (fun ir =>
          !(ires.outliers.map (fun r => r.row_index)).contains ir.1)).map Prod.snd) ∧
    res.rows_after = data.length
        - (ires.outliers.map (fun r => r.row_index)).length ∧
    res.rows_before = data.length := by
  have hcol := identify_single_col data c none ires hi
  have hidx := identify_single_indices data c none ires hi
  unfold treat_outliers treatCore at ht
  rw [hi] at ht
  dsimp only at ht
  rw [if_pos hc] at ht
  by_cases hne : ires.outliers = []
  · have hby : outlierIndicesByColumn ires.outliers = [] := by
      rw [hne]
      rfl
    rw [hby] at ht
    rw [hne]
    simp only [List.filterMap_cons, List.filterMap_nil, List.find?_nil,
      List.map_nil, List.flatten_nil, List.filter_nil, List.sum_nil] at ht
    simp only [Option.map] at ht
    simp only [List.filterMap_cons, List.filterMap_nil, List.map_nil,
      List.flatten_nil, List.filter_nil, List.sum_nil] at ht
    injection ht with ht'
    rw [← ht']
    refine ⟨?_, ?_, rfl⟩
    · show round_numeric_values_to_2_decimals
          ((toDF data).enum.filterMap
            (fun ir => if (List.flatten [] : List ℕ).contains ir.1 = true
              then none else some ir.2)) = _
      rw [enum_filterMap_remove _ (fun i => (List.flatten [] : List ℕ).contains i)]
      simp
    · show ((toDF data).enum.filterMap
          (fun ir => if (List.flatten [] : List ℕ).contains ir.1 = true
            then none else some ir.2)).length = _
      rw [enum_filterMap_remove _ (fun i => (List.flatten [] : List ℕ).contains i)]
      simp [List.enum_map_snd, toDF_length]
  · have hby : outlierIndicesByColumn ires.outliers
        = [(c, ires.outliers.map (fun r => r.row_index))] :=
      outlierIndicesByColumn_single ires.outliers c hne hcol
    rw [hby] at ht
    simp only [List.filterMap_cons, List.filterMap_nil] at ht
    have hfind : List.find? (fun p => p.1 = c)
        [(c, ires.outliers.map (fun r => r.row_index))]
        = some (c, ires.outliers.map (fun r => r.row_index)) := by
      simp
    simp only [hfind, Option.map, List.map_cons, List.map_nil,
      List.flatten_cons, List.flatten_nil, List.append_nil] at ht
    have hvalid : (ires.outliers.map (fun r => r.row_index)).filter
          (fun i => i < (toDF data).length)
        = ires.outliers.map (fun r => r.row_index) := by
      apply List.filter_eq_self.mpr
      intro i hi'
      simpa using hidx.2 i hi'
    rw [hvalid] at ht
    rw [enum_filterMap_remove _ (fun i =>
      (ires.outliers.map (fun r => r.row_index)).contains i)] at ht
    injection ht with ht'
    rw [← ht']
    refine ⟨rfl, ?_, rfl⟩
    show (((toDF data).enum.filter _).map Prod.snd).length = _
    rw [length_remove_filter _ _ hidx.1 hidx.2, toDF_length]

def c3ex : Table :=
  [[("x", .float (129/1000)), ("y", .int 7)],
   [("x", .int 2), ("y", .int 7)],
   [("x", .int 3), ("y", .int 7)],
   [("x", .int 4), ("y", .int 7)],
   [("x", .int 5), ("y", .int 7)],
   [("x", .int 100), ("y", .int 7)]]

/-- C3 counterexample: the claim says every surviving row's values are
unchanged from the input, but `treat_outliers` passes its output through
the global 2-decimal rounding: on `c3ex` the surviving first row's
`x = 0.129` comes back as `0.13`. -/
theorem c3_counterexample :
    ∃ res, treat_outliers c3ex (some "x") none .remove none = .ok res ∧
      res.rows_after = 5 ∧
      getVal (c3ex.headD []) "x" = .float (129/1000) ∧
      getVal (res.data.headD []) "x" = .float (13/100) ∧
      getVal (res.data.headD []) "x" ≠ getVal (c3ex.headD []) "x" := by
  refine ⟨⟨[[("x", .float (13/100)), ("y", .int 7)],
    [("x", .float 2), ("y", .int 7)],
    [("x", .float 3), ("y", .int 7)],
    [("x", .float 4), ("y", .int 7)],
    [("x", .float 5), ("y", .int 7)]], 6, 5, 1,
    "remove using iqr method", ["x"], [("x", 1)]⟩, by decide, by decide,
    by decide, by decide, by decide⟩

def c3ex2 : Table :=
  [[("x", .int 1)], [("x", .int 2)], [("x", .int 3)], [("x", .int 4)],
   [("x", .int 5)], [("x", .int 6)], [("x", .int 7)], [("x", .int 8)],
   [("x", .int 100)], [("x", .int 101)]]

def c3ires2 : IdentifyResult :=
  { outliers := [⟨8, "x", 100, -7/2, 29/2⟩, ⟨9, "x", 101, -7/2, 29/2⟩]
    total_outliers := 2
    columns_analyzed := ["x"]
    outliers_by_column := [("x", 2)]
    statistics := [("x", ⟨237/10, 11/2, 13/4, 31/4, 9/2, -7/2, 29/2⟩)] }

theorem c3_witness :
    (∃ res, treat_outliers c3ex2 (some "x") none .remove none = .ok res ∧
      res.data = round_numeric_values_to_2_decimals
        (((toDF c3ex2).enum.filter (fun ir =>
          !(c3ires2.outliers.map (fun r => r.row_index)).contains ir.1)).map
            Prod.snd) ∧
      res.rows_after = c3ex2.length
          - (c3ires2.outliers.map (fun r => r.row_index)).length ∧
      res.rows_before = c3ex2.length) ∧
    (c3ires2.outliers.map (fun r => r.row_index)).length = 2 ∧
    c3ex2.length = 10 := by
  refine ⟨?_, by decide, by decide⟩
  refine ⟨⟨[[("x", .int 1)], [("x", .int 2)], [("x", .int 3)], [("x", .int 4)],
    [("x", .int 5)], [("x", .int 6)], [("x", .int 7)], [("x", .int 8)]],
    10, 8, 2, "remove using iqr method", ["x"], [("x", 2)]⟩, by decide, ?_⟩
  exact c3_remove_drops_flagged c3ex2 "x" c3ires2 _ (by decide) (by decide)
    (by decide)

/-! ## C9: the `transform` strategy rewrites the whole column -/

theorem getVal_update_row (r : Row) (c : String) (f : Value → Value)
    (h : (r.map Prod.fst).contains c = true) :
    getVal (r.map (fun p => if p.1 = c then (p.1, f p.2) else p)) c
      = f (getVal r c) := by
  induction r with
  | nil => simp at h
  | cons p rest ih =>
    by_cases hp : p.1 = c
    · simp only [List.map_cons, hp, if_pos]
      rw [getVal_cons, getVal_cons]
      simp [hp]
    · simp only [List.map_cons]
      rw [getVal_cons, getVal_cons]
      rw [show (if p.1 = c then (p.1, f p.2) else p) = p from if_neg hp]
      rw [if_neg hp, if_neg hp]
      apply ih
      simp only [List.map_cons, List.contains_cons] at h
      rcases Bool.or_eq_true_iff.mp h with h' | h'
      · exact absurd (Eq.symm (by simpa using h')) hp
      · exact h'

theorem columnCells_mapColumn (t : Table) (c : String) (f : Value → Value)
    (h : ∀ r ∈ t, (r.map Prod.fst).contains c = true) :
    columnCells (mapColumn t c f) c = (columnCells t c).map f := by
  unfold columnCells mapColumn
  rw [List.map_map, List.map_map]
  apply List.map_congr_left
  intro r hr
  exact getVal_update_row r c f (h r hr)

theorem toDF_row_keys (data : Table) (r : Row) (hr : r ∈ toDF data) :
    r.map Prod.fst = tableColumns data := by
  unfold toDF at hr
  rcases List.mem_map.mp hr with ⟨r0, _, rfl⟩
  simp [List.map_map, Function.comp_def]

theorem updateCellsAt_get_not_flagged (df : Table) (c : String)
    (idxs : List ℕ) (f : Value → Value) (i : ℕ)
    (h : idxs.contains i = false) :
    (updateCellsAt df c idxs f).get? i = df.get? i := by
  unfold updateCellsAt
  rw [List.get?_map, List.enum_get?]
  cases hg : df.get? i with
  | none => rfl
  | some r =>
    simp [Option.map, h]
    intro hmem
    have : idxs.contains i = true := by simpa using hmem
    rw [h] at this
    cases this

theorem columnCells_getD (t : Table) (c : String) (i : ℕ) :
    (columnCells t c).getD i .null
      = match t.get? i with
        | some r => getVal r c
        | none => .null := by
  unfold columnCells
  show ((t.map (fun r => getVal r c)).get? i).getD .null = _
  rw [List.get?_map]
  cases t.get? i <;> rfl

/-- C9: applying `treat_outliers` with strategy `transform` to a column
in which at least one outlier was detected rewrites every value of that
column — `log1p` when the whole column is positive, else the signed
square root, missing cells staying missing — including the rows that
were **not** flagged; by contrast `cap` and `impute` leave the cells of
non-flagged rows untouched. -/
theorem c9_transform_whole_column (data : Table) (c : String)
    (th : Option ℚ) (tv : Option TreatValue) (ires : IdentifyResult)
    (hi : identify_outliers data (some c) th = .ok ires)
    (hc : (tableColumns data).contains c = true)
    (hflag : ires.outliers ≠ []) :
    (∀ out, treatCore data (some c) th .transform tv = .ok out →
      columnCells out.1 c
        = (columnCells (toDF data) c).map
            (transformCell (if (columnCells (toDF data) c).all (fun v =>
                match v.toRat? with
                | some q => decide (0 < q)
                | none => false) then .log1p else .signedSqrt))) ∧
    (∀ out, treatCore data (some c) th .cap tv = .ok out →
      ∀ i, (ires.outliers.map (fun r => r.row_index)).contains i = false →
        (columnCells out.1 c).getD i .null
          = (columnCells (toDF data) c).getD i .null) ∧
    (∀ out, treatCore data (some c) th .impute tv = .ok out →
      ∀ i, (ires.outliers.map (fun r => r.row_index)).contains i = false →
        (columnCells out.1 c).getD i .null
          = (columnCells (toDF data) c).getD i .null) := by
  have hcol := identify_single_col data c th ires hi
  have hby : outlierIndicesByColumn ires.outliers
      = [(c, ires.outliers.map (fun r => r.row_index))] :=
    outlierIndicesByColumn_single ires.outliers c hflag hcol
  have hkeys : ∀ r ∈ toDF data, (r.map Prod.fst).contains c = true := by
    intro r hr
    rw [toDF_row_keys data r hr]
    exact hc
  have hunfold : ∀ (tr : Treatment),
      treatCore data (some c) th tr tv
        = (if tr = .remove then treatCore data (some c) th tr tv else
            .ok (treatOneColumn (toDF data) c
              (ires.outliers.map (fun r => r.row_index))
              ((ires.statistics.find? (fun q => q.1 = c)).map Prod.snd) tr tv,
              (ires.outliers.map (fun r => r.row_index)).length,
              (outlierIndicesByColumn ires.outliers).map Prod.fst,
              [(c, (ires.outliers.map (fun r => r.row_index)).length)])) := by
    intro tr
    cases htr : tr with
    | remove => simp
    | cap =>
      simp only [if_neg (by simp : Treatment.cap ≠ Treatment.remove)]
      unfold treatCore
      rw [hi]
      dsimp only
      rw [if_pos hc, hby]
      simp only [List.filterMap_cons, List.filterMap_nil]
      have hfind : List.find? (fun p => p.1 = c)
          [(c, ires.outliers.map (fun r => r.row_index))]
          = some (c, ires.outliers.map (fun r => r.row_index)) := by
        simp
      simp only [hfind, Option.map, List.map_cons, List.map_nil,
        List.sum_cons, List.sum_nil, List.foldl_cons, List.foldl_nil]
      rfl
    | winsorize =>
      simp only [if_neg (by simp : Treatment.winsorize ≠ Treatment.remove)]
      unfold treatCore
      rw [hi]
      dsimp only
      rw [if_pos hc, hby]
      simp only [List.filterMap_cons, List.filterMap_nil]
      have hfind : List.find? (fun p => p.1 = c)
          [(c, ires.outliers.map (fun r => r.row_index))]
          = some (c, ires.outliers.map (fun r => r.row_index)) := by
        simp
      simp only [hfind, Option.map, List.map_cons, List.map_nil,
        List.sum_cons, List.sum_nil, List.foldl_cons, List.foldl_nil]
      rfl
    | transform =>
      simp only [if_neg (by simp : Treatment.transform ≠ Treatment.remove)]
      unfold treatCore
      rw [hi]
      dsimp only
      rw [if_pos hc, hby]
      simp only [List.filterMap_cons, List.filterMap_nil]
      have hfind : List.find? (fun p => p.1 = c)
          [(c, ires.outliers.map (fun r => r.row_index))]
          = some (c, ires.outliers.map (fun r => r.row_index)) := by
        simp
      simp only [hfind, Option.map, List.map_cons, List.map_nil,
        List.sum_cons, List.sum_nil, List.foldl_cons, List.foldl_nil]
      rfl
    | impute =>
      simp only [if_neg (by simp : Treatment.impute ≠ Treatment.remove)]
      unfold treatCore
      rw [hi]
      dsimp only
      rw [if_pos hc, hby]
      simp only [List.filterMap_cons, List.filterMap_nil]
      have hfind : List.find? (fun p => p.1 = c)
          [(c, ires.outliers.map (fun r => r.row_index))]
          = some (c, ires.outliers.map (fun r => r.row_index)) := by
        simp
      simp only [hfind, Option.map, List.map_cons, List.map_nil,
        List.sum_cons, List.sum_nil, List.foldl_cons, List.foldl_nil]
      rfl
  refine ⟨?_, ?_, ?_⟩
  · intro out hout
    rw [hunfold .transform] at hout
    rw [if_neg (by simp)] at hout
    injection hout with hout'
    rw [← hout']
    show columnCells (treatOneColumn (toDF data) c
      (ires.outliers.map (fun r => r.row_index))
      ((ires.statistics.find? (fun q => q.1 = c)).map Prod.snd)
      .transform tv) c = _
    unfold treatOneColumn
    exact columnCells_mapColumn (toDF data) c _ hkeys
  · intro out hout i hni
    rw [hunfold .cap] at hout
    rw [if_neg (by simp)] at hout
    injection hout with hout'
    rw [← hout']
    show (columnCells (treatOneColumn (toDF data) c
      (ires.outliers.map (fun r => r.row_index))
      ((ires.statistics.find? (fun q => q.1 = c)).map Prod.snd)
      .cap tv) c).getD i .null = _
    unfold treatOneColumn
    rw [columnCells_getD, columnCells_getD]
    rw [updateCellsAt_get_not_flagged _ _ _ _ _ hni]
  · intro out hout i hni
    rw [hunfold .impute] at hout
    rw [if_neg (by simp)] at hout
    injection hout with hout'
    rw [← hout']
    show (columnCells (treatOneColumn (toDF data) c
      (ires.outliers.map (fun r => r.row_index))
      ((ires.statistics.find? (fun q => q.1 = c)).map Prod.snd)
      .impute tv) c).getD i .null = _
    unfold treatOneColumn
    by_cases hv : (presentRats (columnCells (toDF data) c)).isEmpty = true
    · simp only [hv, if_true]
    · have hv' : (presentRats (columnCells (toDF data) c)).isEmpty = false := by
        simpa using hv
      simp only [hv', Bool.false_eq_true, if_false]
      rw [columnCells_getD, columnCells_getD]
      rw [updateCellsAt_get_not_flagged _ _ _ _ _ hni]

def c9ex : Table :=
  [[("x", .int 1)], [("x", .int 2)], [("x", .int 3)],
   [("x", .int 4)], [("x", .int 5)], [("x", .int 100)]]

def c9ires : IdentifyResult :=
  { outliers := [⟨5, "x", 100, -3/2, 17/2⟩]
    total_outliers := 1
    columns_analyzed := ["x"]
    outliers_by_column := [("x", 1)]
    statistics := [("x", ⟨115/6, 7/2, 9/4, 19/4, 5/2, -3/2, 17/2⟩)] }

theorem c9_witness :
    ((∀ out, treatCore c9ex (some "x") none .transform none = .ok out →
      columnCells out.1 "x"
        = (columnCells (toDF c9ex) "x").map
            (transformCell (if (columnCells (toDF c9ex) "x").all (fun v =>
                match v.toRat? with
                | some q => decide (0 < q)
                | none => false) then .log1p else .signedSqrt))) ∧
    (∀ out, treatCore c9ex (some "x") none .cap none = .ok out →
      ∀ i, (c9ires.outliers.map (fun r => r.row_index)).contains i = false →
        (columnCells out.1 "x").getD i .null
          = (columnCells (toDF c9ex) "x").getD i .null) ∧
    (∀ out, treatCore c9ex (some "x") none .impute none = .ok out →
      ∀ i, (c9ires.outliers.map (fun r => r.row_index)).contains i = false →
        (columnCells out.1 "x").getD i .null
          = (columnCells (toDF c9ex) "x").getD i .null)) ∧
    (∃ out, treatCore c9ex (some "x") none .transform none = .ok out ∧
      (columnCells out.1 "x").getD 0 .null = .xform .log1p 1 ∧
      (columnCells (toDF c9ex) "x").getD 0 .null = .int 1) :=
  ⟨c9_transform_whole_column c9ex "x" none none c9ires (by decide) (by decide)
    (by decide),
   ⟨⟨(toDF c9ex).map (fun r => r.map (fun p =>
      (p.1, transformCell .log1p p.2))), 1, ["x"], [("x", 1)]⟩,
     by decide, by decide, by decide⟩⟩


/-! ## C6: `customer_id` grouped to a distinct count under `unique_customers`

Transfer lemmas: the pre-grouping column transformation leaves the group
key and identifier columns untouched, so groups and their cells can be
read off the rectangularized input frame. -/


theorem mem_of_contains_true {l : List String} {a : String}
    (h : l.contains a = true) : a ∈ l := by
  simpa using h

theorem contains_true_of_mem {l : List String} {a : String}
    (h : a ∈ l) : l.contains a = true := by
  simpa using h

theorem range_map_getD {α : Type} (l : List α) (d : α) :
    (List.range l.length).map (fun i => l.getD i d) = l := by
  induction l with
  | nil => rfl
  | cons x xs ih =>
    show (List.range (xs.length + 1)).map _ = _
    rw [List.range_succ_eq_map, List.map_cons, List.map_map]
    refine congrArg₂ List.cons rfl ?_
    rw [List.map_congr_left (fun i _ => rfl)]
    exact ih

theorem getVal_keyed_map (cols : List String) (f : String → Value) (c : String)
    (hc : c ∈ cols) :
    getVal (cols.map (fun x => (x, f x))) c = f c := by
  induction cols with
  | nil => cases hc
  | cons a rest ih =>
    rw [List.map_cons, getVal_cons]
    by_cases h : a = c
    · rw [if_pos h, h]
    · rw [if_neg h]
      rcases List.mem_cons.mp hc with rfl | hc'
      · exact absurd rfl h
      · exact ih hc'

theorem aggColumnCells_untouched (df : Table) (ns bs : List String) (c : String)
    (h1 : ns.contains c = false) (h2 : bs.contains c = false) :
    aggColumnCells df ns bs c = columnCells df c := by
  have h1' : c ∉ ns := fun hm => by rw [contains_true_of_mem hm] at h1; cases h1
  have h2' : c ∉ bs := fun hm => by rw [contains_true_of_mem hm] at h2; cases h2
  unfold aggColumnCells
  simp [h1', h2']

theorem columnCells_transformAgg (df : Table) (ns bs : List String) (c : String)
    (hc : c ∈ tableColumns df) :
    columnCells (transformAggTable df ns bs) c
      = (List.range df.length).map
          (fun i => (aggColumnCells df ns bs c).getD i Value.null) := by
  unfold transformAggTable columnCells
  rw [List.map_map]
  refine List.map_congr_left ?_
  intro i _
  show getVal (((tableColumns df).map
      (fun c' => (c', aggColumnCells df ns bs c'))).map
      (fun p => (p.1, p.2.getD i Value.null))) c = _
  rw [List.map_map]
  exact getVal_keyed_map _ (fun c' =>
    (aggColumnCells df ns bs c').getD i Value.null) c hc

theorem columnCells_transform_untouched (df : Table) (ns bs : List String)
    (c : String) (hc : c ∈ tableColumns df)
    (h1 : ns.contains c = false) (h2 : bs.contains c = false) :
    columnCells (transformAggTable df ns bs) c = columnCells df c := by
  rw [columnCells_transformAgg df ns bs c hc,
    aggColumnCells_untouched df ns bs c h1 h2]
  have hl : (columnCells df c).length = df.length := columnCells_length df c
  rw [← hl]
  exact range_map_getD _ _

theorem tableColumns_foldl_full (rows : Table) (K acc : List String)
    (hrows : ∀ r ∈ rows, r.map Prod.fst = K)
    (hacc : ∀ c ∈ K, acc.contains c = true) :
    rows.foldl (fun a r => a ++ (r.map Prod.fst).filter (fun c => !a.contains c))
      acc = acc := by
  induction rows generalizing acc with
  | nil => rfl
  | cons r rest ih =>
    rw [List.foldl_cons]
    have hfe : (r.map Prod.fst).filter (fun c => !acc.contains c) = [] := by
      rw [hrows r (by simp)]
      refine List.filter_eq_nil.mpr ?_
      intro a ha
      rw [hacc a ha]
      decide
    rw [hfe, List.append_nil]
    exact ih acc (fun r hr => hrows r (by simp [hr])) hacc

theorem tableColumns_toDF (data : Table) :
    tableColumns (toDF data) = tableColumns data := by
  have hrows : ∀ r ∈ toDF data, r.map Prod.fst = tableColumns data :=
    fun r hr => toDF_row_keys data r hr
  cases hdf : toDF data with
  | nil =>
    have hnil : data = [] := by
      cases data with
      | nil => rfl
      | cons r rest => exact absurd hdf (by simp [toDF])
    rw [hnil]
  | cons r0 rs =>
    have h0 : r0.map Prod.fst = tableColumns data :=
      hrows r0 (by rw [hdf]; exact List.mem_cons_self r0 rs)
    rw [hdf] at hrows
    show List.foldl _ [] (r0 :: rs) = _
    rw [List.foldl_cons]
    have hK : ([] : List String) ++
        (r0.map Prod.fst).filter (fun c => !(List.contains [] c))
          = tableColumns data := by
      rw [List.nil_append, h0]
      exact List.filter_eq_self.mpr (fun a _ => rfl)
    rw [hK]
    refine tableColumns_foldl_full rs (tableColumns data) (tableColumns data)
      (fun r hr => hrows r (List.mem_cons_of_mem r0 hr)) ?_
    intro c hcK
    exact contains_true_of_mem hcK

theorem filter_key_map_eq (t t' : Table) (g c : String) (k : Value)
    (hg : columnCells t g = columnCells t' g)
    (hc : columnCells t c = columnCells t' c) :
    (t.filter (fun r => getVal r g = k)).map (fun r => getVal r c)
      = (t'.filter (fun r => getVal r g = k)).map (fun r => getVal r c) := by
  unfold columnCells at hg hc
  induction t generalizing t' with
  | nil =>
    cases t' with
    | nil => rfl
    | cons r rest => cases hg
  | cons r rest ih =>
    cases t' with
    | nil => cases hg
    | cons r' rest' =>
      simp only [List.map_cons, List.cons.injEq] at hg hc
      obtain ⟨hg1, hg2⟩ := hg
      obtain ⟨hc1, hc2⟩ := hc
      simp only [List.filter_cons, hg1, hc1]
      by_cases hk : getVal r' g = k
      · rw [if_pos (decide_eq_true hk), if_pos (decide_eq_true hk),
          List.map_cons, List.map_cons, hc1, ih rest' hg2 hc2]
      · rw [if_neg (fun hcontra => hk (of_decide_eq_true hcontra)),
          if_neg (fun hcontra => hk (of_decide_eq_true hcontra))]
        exact ih rest' hg2 hc2

theorem groupKeys_congr (t t' : Table) (g : String)
    (hg : columnCells t g = columnCells t' g) :
    groupKeys t g = groupKeys t' g := by
  unfold columnCells at hg
  unfold groupKeys
  rw [hg]

theorem getVal_pairs_prop (spec : List AggSpecEntry)
    (valOf : AggSpecEntry → Value) (nm : String) (P : Value → Prop)
    (hex : ∃ e ∈ spec, e.outName = nm)
    (hall : ∀ e ∈ spec, e.outName = nm → P (valOf e)) :
    P (getVal (spec.map (fun e => (e.outName, valOf e))) nm) := by
  induction spec with
  | nil =>
    obtain ⟨e, he, _⟩ := hex
    cases he
  | cons e rest ih =>
    rw [List.map_cons, getVal_cons]
    by_cases h : e.outName = nm
    · rw [if_pos h]
      exact hall e (List.mem_cons_self e rest) h
    · rw [if_neg h]
      refine ih ?_ ?_
      · obtain ⟨e', he', hn'⟩ := hex
        rcases List.mem_cons.mp he' with rfl | he''
        · exact absurd hn' h
        · exact ⟨e', he'', hn'⟩
      · intro e' he' hn'
        exact hall e' (List.mem_cons_of_mem e he') hn'

theorem idEntry_mem_buildAggSpec (sem : SemanticCols) (ids : List String)
    (funcs : List (String × AggFunc)) (fl : IntentFlags) (c : String)
    (hc : c ∈ ids) :
    idEntry c ∈ buildAggSpec sem ids funcs fl := by
  unfold buildAggSpec
  apply List.mem_append_left
  apply List.mem_filter.mpr
  refine ⟨?_, rfl⟩
  apply List.mem_append_right
  exact List.mem_map_of_mem idEntry hc

theorem candidateCols_subset (allCols : List String) (g : String)
    (aggCols : Option (List String)) (c : String)
    (hc : c ∈ candidateCols allCols g aggCols) : c ∈ allCols := by
  cases aggCols with
  | none =>
    unfold candidateCols at hc
    exact (List.mem_filter.mp hc).1
  | some cs =>
    unfold candidateCols at hc
    dsimp only at hc
    by_cases h : cs ≠ []
    · rw [if_pos h] at hc
      exact mem_of_contains_true (by simpa using (List.mem_filter.mp hc).2)
    · rw [if_neg h] at hc
      exact (List.mem_filter.mp hc).1


/-- C6: when an `aggregate_data` request keeps a value column named
`customer_id`, that column is output under the label `unique_customers`,
and its value in each group is the number of distinct non-missing
`customer_id` values of that group (so values `[1,1,2,3]` yield `3`). -/
theorem c6_customer_id_distinct_count (data : Table) (g : String)
    (aggCols : Option (List String)) (funcs : List (String × AggFunc))
    (intent : Option String) (res : AggResult)
    (hok : aggregate_data data g aggCols funcs none true intent = .ok res)
    (hgname : g ≠ "unique_customers")
    (hcid : "customer_id" ∈ candidateCols (tableColumns data) g aggCols)
    (hname : ∀ e ∈ aggSpecOfRun data g aggCols funcs intent,
      e.outName = "unique_customers" → e.col = "customer_id")
    (hgn : ((classifiedOfRun data g aggCols).1).contains g = false) :
    ∀ k ∈ groupKeys (toDF data) g,
      ∃ row ∈ res.data,
        getVal row g = roundValue k ∧
        getVal row "unique_customers"
          = .int ((distinctFirst ((columnCells (groupRows (toDF data) g k)
              "customer_id").filter (fun v => !v.isNull))).length : ℤ) := by
  intro k hk
  have hbsg : ((semOfRun data g aggCols).booleanCols).contains g = false := by
    cases hb : ((semOfRun data g aggCols).booleanCols).contains g with
    | false => rfl
    | true =>
      exfalso
      have hmem := mem_of_contains_true hb
      unfold semOfRun at hmem
      have hns := (semanticPartition_boolean_char (toDF data)
        (classifiedOfRun data g aggCols).1 (tableColumns data) g hmem).1
      rw [contains_true_of_mem hns] at hgn
      cases hgn
  simp only [aggregate_data] at hok
  split_ifs at hok with hA hB hC
  have hgcont : (tableColumns data).contains g = true := by
    cases hcont : (tableColumns data).contains g with
    | true => rfl
    | false => exact absurd (by rw [hcont]; rfl) hA
  rw [Except.ok.injEq] at hok
  subst hok
  dsimp only
  have hgmem : g ∈ tableColumns (toDF data) := by
    rw [tableColumns_toDF]
    exact mem_of_contains_true hgcont
  have hgcol : columnCells (groupedTableOfRun data g aggCols) g
      = columnCells (toDF data) g := by
    unfold groupedTableOfRun
    exact columnCells_transform_untouched _ _ _ _ hgmem hgn hbsg
  have hkeys : groupKeys (groupedTableOfRun data g aggCols) g
      = groupKeys (toDF data) g :=
    groupKeys_congr _ _ _ hgcol
  have hcidall : "customer_id" ∈ tableColumns data :=
    candidateCols_subset _ _ _ _ hcid
  have hcidmem : "customer_id" ∈ tableColumns (toDF data) := by
    rw [tableColumns_toDF]
    exact hcidall
  have hcidids : "customer_id" ∈ (classifiedOfRun data g aggCols).2.1 := by
    unfold classifiedOfRun
    exact classifyThree_ids_complete (toDF data) _ _ hcid (by decide)
  have hcidns :
      ((classifiedOfRun data g aggCols).1).contains "customer_id" = false := by
    cases hb : ((classifiedOfRun data g aggCols).1).contains "customer_id" with
    | false => rfl
    | true =>
      exfalso
      have hmem := mem_of_contains_true hb
      unfold classifiedOfRun at hmem
      have hni := (classifyThree_numeric_char (toDF data) _ _ hmem).1
      rw [show is_id_column "customer_id" = true from by decide] at hni
      cases hni
  have hcidbs :
      ((semOfRun data g aggCols).booleanCols).contains "customer_id"
        = false := by
    cases hb : ((semOfRun data g aggCols).booleanCols).contains "customer_id"
      with
    | false => rfl
    | true =>
      exfalso
      have hmem := mem_of_contains_true hb
      unfold semOfRun at hmem
      have hns := (semanticPartition_boolean_char (toDF data)
        (classifiedOfRun data g aggCols).1 (tableColumns data) _ hmem).1
      rw [contains_true_of_mem hns] at hcidns
      cases hcidns
  have hcidcol : columnCells (groupedTableOfRun data g aggCols) "customer_id"
      = columnCells (toDF data) "customer_id" := by
    unfold groupedTableOfRun
    exact columnCells_transform_untouched _ _ _ _ hcidmem hcidns hcidbs
  rw [← hkeys] at hk
  refine ⟨((g, k) :: (aggSpecOfRun data g aggCols funcs intent).map
      (fun e => (e.outName, aggApply e.f (columnCells
        (groupRows (groupedTableOfRun data g aggCols) g k) e.col)))).map
      (fun p => (p.1, roundValue p.2)), ?_, ?_, ?_⟩
  · show _ ∈ round_numeric_values_to_2_decimals _
    unfold round_numeric_values_to_2_decimals
    exact List.mem_map_of_mem _ (List.mem_map_of_mem _ hk)
  · rw [getVal_map_round, getVal_cons, if_pos rfl]
  · rw [getVal_map_round, getVal_cons, if_neg hgname]
    refine getVal_pairs_prop _ _ _ (fun v => roundValue v = _) ?_ ?_
    · exact ⟨idEntry "customer_id",
        idEntry_mem_buildAggSpec _ _ _ _ _ hcidids, by decide⟩
    · intro e he hnm
      have hcol := hname e he hnm
      have hf := (aggSpec_id_col_nunique data g aggCols funcs intent
        "customer_id" hcidids e he hcol).1
      have hcells : columnCells
          (groupRows (groupedTableOfRun data g aggCols) g k) "customer_id"
            = columnCells (groupRows (toDF data) g k) "customer_id" :=
        filter_key_map_eq _ _ g "customer_id" k hgcol hcidcol
      rw [hcol, hf, hcells]
      rfl

def c6ex : Table :=
  [[("region", .str "A"), ("customer_id", .int 1)],
   [("region", .str "A"), ("customer_id", .int 1)],
   [("region", .str "A"), ("customer_id", .int 2)],
   [("region", .str "A"), ("customer_id", .int 3)]]

def c6res : AggResult :=
  ⟨[[("region", .str "A"), ("unique_customers", .int 3)]], 4, 1⟩

theorem c6_witness :
    aggregate_data c6ex "region" none [] none true none = .ok c6res ∧
    ∀ k ∈ groupKeys (toDF c6ex) "region",
      ∃ row ∈ c6res.data,
        getVal row "region" = roundValue k ∧
        getVal row "unique_customers"
          = .int ((distinctFirst ((columnCells
              (groupRows (toDF c6ex) "region" k)
              "customer_id").filter (fun v => !v.isNull))).length : ℤ) :=
  ⟨by decide,
   c6_customer_id_distinct_count c6ex "region" none [] none c6res (by decide)
     (by decide) (by decide) (by decide) (by decide)⟩


/-! ## C2: pivot cells

The spec claims each pivot cell equals the selected aggregation of the
value column over the matching rows.  The aggregation itself is as
claimed (missing when no row matches), but the output rounding step
rewrites every float cell to 2 decimals, so the delivered cell is the
rounded aggregation. -/


theorem mem_insertSorted {α : Type} (le : α → α → Bool) (x a : α)
    (l : List α) : a ∈ insertSorted le x l ↔ a = x ∨ a ∈ l := by
  induction l with
  | nil => simp [insertSorted]
  | cons y ys ih =>
    unfold insertSorted
    by_cases h : le x y = true
    · rw [if_pos h]
      simp [List.mem_cons]
    · rw [if_neg h]
      simp only [List.mem_cons, ih]
      tauto

theorem mem_stableSort {α : Type} (le : α → α → Bool) (a : α) (l : List α) :
    a ∈ stableSort le l ↔ a ∈ l := by
  unfold stableSort
  induction l with
  | nil => simp
  | cons x xs ih =>
    rw [List.foldr_cons, mem_insertSorted]
    simp only [List.mem_cons, ih]

theorem mem_distinctFirst_foldl {α : Type} [DecidableEq α] (l : List α)
    (acc : List α) (a : α) :
    a ∈ l.foldl (fun acc x => if acc.contains x then acc else acc ++ [x]) acc
      ↔ a ∈ acc ∨ a ∈ l := by
  induction l generalizing acc with
  | nil => simp
  | cons x xs ih =>
    rw [List.foldl_cons]
    by_cases h : acc.contains x = true
    · rw [if_pos h, ih]
      constructor
      · rintro (h' | h')
        · exact Or.inl h'
        · exact Or.inr (List.mem_cons_of_mem x h')
      · rintro (h' | h')
        · exact Or.inl h'
        · rcases List.mem_cons.mp h' with rfl | h''
          · exact Or.inl (by simpa using h)
          · exact Or.inr h''
    · rw [if_neg h, ih]
      simp only [List.mem_append, List.mem_singleton, List.mem_cons]
      tauto

theorem mem_distinctFirst {α : Type} [DecidableEq α] (l : List α) (a : α) :
    a ∈ distinctFirst l ↔ a ∈ l := by
  unfold distinctFirst
  rw [mem_distinctFirst_foldl]
  simp

theorem getVal_append_skip (l1 l2 : Row) (nm : String)
    (h : ∀ p ∈ l1, p.1 ≠ nm) :
    getVal (l1 ++ l2) nm = getVal l2 nm := by
  induction l1 with
  | nil => rfl
  | cons p rest ih =>
    rw [List.cons_append, getVal_cons, if_neg (h p (List.mem_cons_self p rest))]
    exact ih (fun q hq => h q (List.mem_cons_of_mem p hq))

theorem getVal_map_prop {α : Type} (l : List α) (nameOf : α → String)
    (valOf : α → Value) (nm : String) (P : Value → Prop)
    (hex : ∃ x ∈ l, nameOf x = nm)
    (hall : ∀ x ∈ l, nameOf x = nm → P (valOf x)) :
    P (getVal (l.map (fun x => (nameOf x, valOf x))) nm) := by
  induction l with
  | nil =>
    obtain ⟨x, hx, _⟩ := hex
    cases hx
  | cons x rest ih =>
    rw [List.map_cons, getVal_cons]
    by_cases h : nameOf x = nm
    · rw [if_pos h]
      exact hall x (List.mem_cons_self x rest) h
    · rw [if_neg h]
      refine ih ?_ ?_
      · obtain ⟨x', hx', hn'⟩ := hex
        rcases List.mem_cons.mp hx' with rfl | hx''
        · exact absurd hn' h
        · exact ⟨x', hx'', hn'⟩
      · intro x' hx' hn'
        exact hall x' (List.mem_cons_of_mem x hx') hn'

theorem getVal_zip_map_append (l : List String) (f : String → Value)
    (rest : Row) (p : String) (hp : p ∈ l) :
    getVal ((l.zip (l.map f)) ++ rest) p = f p := by
  induction l with
  | nil => cases hp
  | cons q qs ih =>
    show getVal ((q, f q) :: (qs.zip (qs.map f) ++ rest)) p = f p
    rw [getVal_cons]
    by_cases h : q = p
    · rw [if_pos h, h]
    · rw [if_neg h]
      rcases List.mem_cons.mp hp with rfl | hp'
      · exact absurd rfl h
      · exact ih hp'

theorem mem_pairs_flatten (xs : List String) (ys : List Value)
    (p : String × Value) :
    p ∈ (xs.map (fun c => ys.map (fun iv => (c, iv)))).flatten
      ↔ p.1 ∈ xs ∧ p.2 ∈ ys := by
  simp only [List.mem_flatten, List.mem_map]
  constructor
  · rintro ⟨sub, ⟨c, hc, rfl⟩, hp⟩
    obtain ⟨iv, hiv, rfl⟩ := List.mem_map.mp hp
    exact ⟨hc, hiv⟩
  · rintro ⟨h1, h2⟩
    refine ⟨ys.map (fun iv => (p.1, iv)), ⟨p.1, h1, rfl⟩, ?_⟩
    obtain ⟨a, b⟩ := p
    exact List.mem_map_of_mem _ h2


/-- The (value column, index value) pairs whose pivot column survives the
all-missing `dropna` filter of `pivot_table`. -/
def pivotKeptPairs (data : Table) (index_column : String)
    (vcols : Option (List String)) (funcs : List (String × AggFunc)) :
    List (String × Value) :=
  ((((pivotClassified data index_column vcols).1
      ++ (pivotClassified data index_column vcols).2.1).map
    (fun c => (stableSort (fun a b => valLe a b)
      (pivotIndexValues data index_column)).map
        (fun iv => (c, iv)))).flatten).filter
    (fun p => (distinctFirst ((pivotValidRows data index_column vcols).map
        (preservedTuple (pivotPreserved data index_column vcols)))).any
      (fun tup =>
        !(pivotCellOfRun data index_column vcols funcs tup p.1 p.2).isNull))

theorem isNull_eq_null (v : Value) (h : v.isNull = true) : v = .null := by
  cases v with
  | null => rfl
  | int n => cases h
  | float q => cases h
  | str s => cases h
  | bool b => cases h
  | xform t q => cases h

theorem getVal_eq_null_of_keys_ne (l : Row) (nm : String)
    (h : ∀ p ∈ l, p.1 ≠ nm) : getVal l nm = .null := by
  induction l with
  | nil => rfl
  | cons p rest ih =>
    rw [getVal_cons, if_neg (h p (List.mem_cons_self p rest))]
    exact ih (fun q hq => h q (List.mem_cons_of_mem p hq))

theorem getVal_map_append_prop {α : Type} (l : List α) (nameOf : α → String)
    (valOf : α → Value) (nm : String) (tail : Row) (P : Value → Prop)
    (hex : ∃ x ∈ l, nameOf x = nm)
    (hall : ∀ x ∈ l, nameOf x = nm → P (valOf x)) :
    P (getVal (l.map (fun x => (nameOf x, valOf x)) ++ tail) nm) := by
  induction l with
  | nil =>
    obtain ⟨x, hx, _⟩ := hex
    cases hx
  | cons x rest ih =>
    rw [List.map_cons, List.cons_append, getVal_cons]
    by_cases h : nameOf x = nm
    · rw [if_pos h]
      exact hall x (List.mem_cons_self x rest) h
    · rw [if_neg h]
      refine ih ?_ ?_
      · obtain ⟨x', hx', hn'⟩ := hex
        rcases List.mem_cons.mp hx' with rfl | hx''
        · exact absurd hn' h
        · exact ⟨x', hx'', hn'⟩
      · intro x' hx' hn'
        exact hall x' (List.mem_cons_of_mem x hx') hn'

/-- C2 (amended): in a `pivot_table` run with preserved columns, the
output row of a preserved-tuple group holds, under the flattened column
name of each (value column, index value) pair, the 2-decimal-rounded
selected aggregation (default `sum`) of that value column over the
group's rows with that index value — and the missing-cell case yields
`null`, not zero, since dropped all-missing columns read back as
missing. -/
theorem c2_pivot_cell_rounded (data : Table) (index_column : String)
    (vcols : Option (List String)) (funcs : List (String × AggFunc))
    (res : PivotResult) (tup : List Value) (c : String) (iv : Value)
    (hok : pivot_table data index_column vcols funcs = .ok res)
    (hpres : pivotPreserved data index_column vcols ≠ [])
    (htup : tup ∈ distinctFirst ((pivotValidRows data index_column vcols).map
      (preservedTuple (pivotPreserved data index_column vcols))))
    (hc : c ∈ (pivotClassified data index_column vcols).1
      ++ (pivotClassified data index_column vcols).2.1)
    (hiv : iv ∈ pivotIndexValues data index_column)
    (hnp : ∀ p ∈ pivotPreserved data index_column vcols,
      p ≠ pivotColName (pivotClassified data index_column vcols).2.1 c iv)
    (hinj : ∀ c' ∈ (pivotClassified data index_column vcols).1
        ++ (pivotClassified data index_column vcols).2.1,
      ∀ iv' ∈ pivotIndexValues data index_column,
        pivotColName (pivotClassified data index_column vcols).2.1 c' iv'
          = pivotColName (pivotClassified data index_column vcols).2.1 c iv →
        c' = c ∧ iv' = iv)
    (hic : pivotColName (pivotClassified data index_column vcols).2.1 c iv
      ≠ index_column) :
    ∃ row ∈ res.data,
      preservedTuple (pivotPreserved data index_column vcols) row
        = tup.map roundValue ∧
      getVal row
          (pivotColName (pivotClassified data index_column vcols).2.1 c iv)
        = roundValue
            (pivotCellOfRun data index_column vcols funcs tup c iv) := by
  obtain ⟨rv, hrvmem, hrvtup⟩ :
      ∃ rv ∈ pivotValidRows data index_column vcols,
        preservedTuple (pivotPreserved data index_column vcols) rv = tup := by
    obtain ⟨rv, h1', h2'⟩ := List.mem_map.mp ((mem_distinctFirst _ _).mp htup)
    exact ⟨rv, h1', h2'⟩
  have hrvdf : rv ∈ toDF data := List.mem_of_mem_filter hrvmem
  have htupG : tup ∈ distinctFirst ((toDF data).map
      (preservedTuple (pivotPreserved data index_column vcols))) :=
    (mem_distinctFirst _ _).mpr (hrvtup ▸ List.mem_map_of_mem _ hrvdf)
  have htupmap : tup.map roundValue
      = (pivotPreserved data index_column vcols).map
          (fun p => roundValue (getVal rv p)) := by
    rw [← hrvtup]
    unfold preservedTuple
    rw [List.map_map]
    rfl
  have hzip : ∀ rest : Row, ∀ p ∈ pivotPreserved data index_column vcols,
      getVal (((pivotPreserved data index_column vcols).zip tup) ++ rest) p
        = getVal rv p := by
    intro rest p hp
    rw [← hrvtup]
    exact getVal_zip_map_append _ _ rest p hp
  have hzipkeys : ∀ q ∈ (pivotPreserved data index_column vcols).zip tup,
      q.1 ≠ pivotColName (pivotClassified data index_column vcols).2.1 c iv :=
    fun q hq => hnp q.1 (List.of_mem_zip hq).1
  have hkeptkeys : ∀ hk : ((c, iv) : String × Value)
        ∉ pivotKeptPairs data index_column vcols funcs,
      ∀ q ∈ (pivotKeptPairs data index_column vcols funcs).map
        (fun p => (pivotColName (pivotClassified data index_column vcols).2.1
            p.1 p.2,
          pivotCellOfRun data index_column vcols funcs tup p.1 p.2)),
        q.1 ≠ pivotColName (pivotClassified data index_column vcols).2.1 c iv := by
    intro hk q hq hqn
    obtain ⟨p, hpk, rfl⟩ := List.mem_map.mp hq
    have hpp := List.mem_of_mem_filter hpk
    have hmem := (mem_pairs_flatten _ _ _).mp hpp
    obtain ⟨hc', hiv'⟩ := hinj p.1 hmem.1 p.2
      ((mem_stableSort _ _ _).mp hmem.2) hqn
    apply hk
    have : p = (c, iv) := by
      obtain ⟨a, b⟩ := p
      cases hc'
      cases hiv'
      rfl
    rw [← this]
    exact hpk
  have hdropnull : ((c, iv) : String × Value)
        ∉ pivotKeptPairs data index_column vcols funcs →
      pivotCellOfRun data index_column vcols funcs tup c iv = .null := by
    intro hk
    have hpair : ((c, iv) : String × Value)
        ∈ ((((pivotClassified data index_column vcols).1
            ++ (pivotClassified data index_column vcols).2.1).map
          (fun c => (stableSort (fun a b => valLe a b)
            (pivotIndexValues data index_column)).map
              (fun iv => (c, iv)))).flatten) :=
      (mem_pairs_flatten _ _ _).mpr ⟨hc, (mem_stableSort _ _ _).mpr hiv⟩
    by_contra hne
    apply hk
    refine List.mem_filter.mpr ⟨hpair, ?_⟩
    refine List.any_eq_true.mpr ⟨tup, htup, ?_⟩
    cases hv : pivotCellOfRun data index_column vcols funcs tup c iv with
    | null => exact absurd hv hne
    | int n => rfl
    | float q => rfl
    | str s => rfl
    | bool b => rfl
    | xform t q => rfl
  have hcellmap : ∀ tail : Row, (∀ q ∈ tail,
        q.1 ≠ pivotColName (pivotClassified data index_column vcols).2.1 c iv) →
      getVal ((pivotKeptPairs data index_column vcols funcs).map
          (fun p => (pivotColName (pivotClassified data index_column vcols).2.1
              p.1 p.2,
            pivotCellOfRun data index_column vcols funcs tup p.1 p.2)) ++ tail)
          (pivotColName (pivotClassified data index_column vcols).2.1 c iv)
        = pivotCellOfRun data index_column vcols funcs tup c iv := by
    intro tail htail
    by_cases hkept : ((c, iv) : String × Value)
        ∈ pivotKeptPairs data index_column vcols funcs
    · refine getVal_map_append_prop _ _ _ _ tail (fun v => v = _)
        ⟨(c, iv), hkept, rfl⟩ ?_
      intro p hpk hpn
      have hpp := List.mem_of_mem_filter hpk
      have hmem := (mem_pairs_flatten _ _ _).mp hpp
      obtain ⟨hc', hiv'⟩ := hinj p.1 hmem.1 p.2
        ((mem_stableSort _ _ _).mp hmem.2) hpn
      obtain ⟨a, b⟩ := p
      cases hc'
      cases hiv'
      rfl
    · rw [getVal_append_skip _ _ _ (hkeptkeys hkept),
        getVal_eq_null_of_keys_ne _ _ htail, hdropnull hkept]
  simp only [pivot_table] at hok
  split_ifs at hok with h1 h2 h3 hA hB
  · exact absurd (List.isEmpty_iff.mp h3) hpres
  · -- preserved branch, index column among the result columns
    rw [Except.ok.injEq] at hok
    subst hok
    refine ⟨((pivotPreserved data index_column vcols).zip tup
        ++ (pivotKeptPairs data index_column vcols funcs).map
          (fun p => (pivotColName (pivotClassified data index_column vcols).2.1
              p.1 p.2,
            pivotCellOfRun data index_column vcols funcs tup p.1 p.2))).map
        (fun p => (p.1, roundValue p.2)), ?_, ?_, ?_⟩
    · show _ ∈ round_numeric_values_to_2_decimals _
      unfold round_numeric_values_to_2_decimals
      exact List.mem_map_of_mem _ ((mem_stableSort _ _ _).mpr
        (List.mem_map_of_mem _ htupG))
    · unfold preservedTuple
      rw [htupmap]
      refine List.map_congr_left ?_
      intro p hp
      rw [getVal_map_round]
      exact congrArg roundValue (hzip _ p hp)
    · rw [getVal_map_round]
      refine congrArg roundValue ?_
      rw [getVal_append_skip _ _ _ hzipkeys]
      by_cases hkept : ((c, iv) : String × Value)
          ∈ pivotKeptPairs data index_column vcols funcs
      · refine getVal_map_prop _ _ _ _ (fun v => v = _)
          ⟨(c, iv), hkept, rfl⟩ ?_
        intro p hpk hpn
        have hpp := List.mem_of_mem_filter hpk
        have hmem := (mem_pairs_flatten _ _ _).mp hpp
        obtain ⟨hc', hiv'⟩ := hinj p.1 hmem.1 p.2
          ((mem_stableSort _ _ _).mp hmem.2) hpn
        obtain ⟨a, b⟩ := p
        cases hc'
        cases hiv'
        rfl
      · rw [getVal_eq_null_of_keys_ne _ _ (hkeptkeys hkept), hdropnull hkept]
  · -- preserved branch, index column reconstructed and appended
    rw [Except.ok.injEq] at hok
    subst hok
    refine ⟨(((pivotPreserved data index_column vcols).zip tup
        ++ (pivotKeptPairs data index_column vcols funcs).map
          (fun p => (pivotColName (pivotClassified data index_column vcols).2.1
              p.1 p.2,
            pivotCellOfRun data index_column vcols funcs tup p.1 p.2)))
        ++ [(index_column, reconstructIndex (toDF data)
            (pivotPreserved data index_column vcols)
            (pivotIndexValues data index_column)
            ((pivotPreserved data index_column vcols)
              ++ (pivotKeptPairs data index_column vcols funcs).map
                (fun p => pivotColName
                  (pivotClassified data index_column vcols).2.1 p.1 p.2))
            index_column
            ((pivotPreserved data index_column vcols).zip tup
              ++ (pivotKeptPairs data index_column vcols funcs).map
                (fun p => (pivotColName
                    (pivotClassified data index_column vcols).2.1 p.1 p.2,
                  pivotCellOfRun data index_column vcols funcs tup p.1 p.2))))]).map
        (fun p => (p.1, roundValue p.2)), ?_, ?_, ?_⟩
    · show _ ∈ round_numeric_values_to_2_decimals _
      unfold round_numeric_values_to_2_decimals
      exact List.mem_map_of_mem _ ((mem_stableSort _ _ _).mpr
        (List.mem_map_of_mem _ (List.mem_map_of_mem _ htupG)))
    · unfold preservedTuple
      rw [htupmap]
      refine List.map_congr_left ?_
      intro p hp
      rw [getVal_map_round, List.append_assoc]
      exact congrArg roundValue (hzip _ p hp)
    · rw [getVal_map_round]
      refine congrArg roundValue ?_
      rw [List.append_assoc, getVal_append_skip _ _ _ hzipkeys]
      refine hcellmap _ ?_
      intro q hq
      rcases List.mem_singleton.mp hq with rfl
      exact fun h => hic h.symm
  · exact absurd (contains_true_of_mem
      (List.mem_append_right _ (List.mem_singleton.mpr rfl))) hB


def c2ex : Table :=
  [[("week", .str "W1"), ("status", .str "Done"),
    ("sales", .float (129/1000))]]

/-- C2 counterexample: the spec promises each pivot cell equals the
selected aggregation of the value column over the matching rows, but the
output rounding changes the cell: aggregating the single sales value
0.129 yields the cell 0.13. -/
theorem c2_counterexample :
    ∃ res, pivot_table c2ex "status" none [] = Except.ok res ∧
      ∃ row ∈ res.data,
        preservedTuple (pivotPreserved c2ex "status" none) row
          = [.str "W1"] ∧
        getVal row "sales_Done" = .float (13/100) ∧
        pivotCellOfRun c2ex "status" none [] [.str "W1"] "sales" (.str "Done")
          = .float (129/1000) ∧
        Value.float (13/100) ≠ .float (129/1000) :=
  ⟨⟨[[("week", .str "W1"), ("sales_Done", .float (13/100)),
      ("status", .str "Done")]], 1, 1⟩, by decide, by decide⟩

def c2ex2 : Table :=
  [[("week", .str "W1"), ("status", .str "Done"), ("sales", .int 100)],
   [("week", .str "W1"), ("status", .str "Open"), ("sales", .int 50)]]

def c2res : PivotResult :=
  ⟨[[("week", .str "W1"), ("sales_Done", .int 100), ("sales_Open", .int 50),
     ("status", .str "Done")]], 2, 1⟩

theorem c2_witness :
    pivot_table c2ex2 "status" none [] = .ok c2res ∧
    (∃ row ∈ c2res.data,
      preservedTuple (pivotPreserved c2ex2 "status" none) row
        = [Value.str "W1"].map roundValue ∧
      getVal row (pivotColName (pivotClassified c2ex2 "status" none).2.1
          "sales" (.str "Done"))
        = roundValue (pivotCellOfRun c2ex2 "status" none [] [.str "W1"]
            "sales" (.str "Done"))) ∧
    (∃ row ∈ c2res.data,
      preservedTuple (pivotPreserved c2ex2 "status" none) row
        = [Value.str "W1"].map roundValue ∧
      getVal row (pivotColName (pivotClassified c2ex2 "status" none).2.1
          "sales" (.str "Open"))
        = roundValue (pivotCellOfRun c2ex2 "status" none [] [.str "W1"]
            "sales" (.str "Open"))) ∧
    roundValue (pivotCellOfRun c2ex2 "status" none [] [.str "W1"]
      "sales" (.str "Done")) = .int 100 ∧
    roundValue (pivotCellOfRun c2ex2 "status" none [] [.str "W1"]
      "sales" (.str "Open")) = .int 50 :=
  ⟨by decide,
   c2_pivot_cell_rounded c2ex2 "status" none [] c2res [.str "W1"] "sales"
     (.str "Done") (by decide) (by decide) (by decide) (by decide) (by decide)
     (by decide) (by decide) (by decide),
   c2_pivot_cell_rounded c2ex2 "status" none [] c2res [.str "W1"] "sales"
     (.str "Open") (by decide) (by decide) (by decide) (by decide) (by decide)
     (by decide) (by decide) (by decide),
   by decide, by decide⟩

end DataOps
